import Mathlib

/-!
Shallow embedding of the EvoFlow workflow core (DAG model, validator,
task executor, scheduler, agent contract, template resolver) translated
from `src/evoflow/workflow/dag.py`, `src/evoflow/workflow/executor.py`,
`src/evoflow/workflow/engine.py`, `src/evoflow/utils/validators.py` and
`src/evoflow/agents/base.py`.
-/

namespace EvoFlow

/-- Python values as they occur in DAG definitions, node inputs and the
execution context (JSON-like data). `vnone` is Python `None`. -/
inductive Value where
  | vnone : Value
  | vbool : Bool → Value
  | vint : Int → Value
  | vstr : String → Value
  | vlist : List Value → Value
  | vdict : List (String × Value) → Value

mutual

/-- Structural equality on embedded Python values (models `==` on the
JSON-like data the workflow core manipulates). -/
def Value.beq : Value → Value → Bool
  | .vnone, .vnone => true
  | .vbool a, .vbool b => a == b
  | .vint a, .vint b => a == b
  | .vstr a, .vstr b => a == b
  | .vlist a, .vlist b => Value.beqList a b
  | .vdict a, .vdict b => Value.beqDict a b
  | _, _ => false

/-- Elementwise equality of value lists. -/
def Value.beqList : List Value → List Value → Bool
  | [], [] => true
  | a :: as, b :: bs => Value.beq a b && Value.beqList as bs
  | _, _ => false

/-- Elementwise equality of dict entry lists. -/
def Value.beqDict : List (String × Value) → List (String × Value) → Bool
  | [], [] => true
  | (k1, v1) :: as, (k2, v2) :: bs => k1 == k2 && Value.beq v1 v2 && Value.beqDict as bs
  | _, _ => false

end

instance : BEq Value := ⟨Value.beq⟩

/-- Python truthiness for the values we model (`bool(x)`). -/
def Value.truthy : Value → Bool
  | .vnone => false
  | .vbool b => b
  | .vint n => n != 0
  | .vstr s => s != ""
  | .vlist l => !l.isEmpty
  | .vdict l => !l.isEmpty

/-- `d.get(k)` on a Python dict represented as an association list
(first binding wins, as dict keys are unique). -/
def dictGet (entries : List (String × Value)) (k : String) : Option Value :=
  (entries.find? (fun p => p.1 == k)).map (·.2)

/-- `d.get(k, default)`. -/
def dictGetD (entries : List (String × Value)) (k : String) (default : Value) : Value :=
  (dictGet entries k).getD default

/-- `k in d` on a Python dict. -/
def dictHas (entries : List (String × Value)) (k : String) : Bool :=
  (dictGet entries k).isSome

/-- `d[k] = v` on a Python dict: overwrite the binding if present,
else append it (insertion order preserved, as in CPython). -/
def dictSet (entries : List (String × Value)) (k : String) (v : Value) : List (String × Value) :=
  if dictHas entries k then
    entries.map (fun p => if p.1 == k then (k, v) else p)
  else
    entries ++ [(k, v)]

/-- Node status enumeration from `dag.py` (`NodeStatus`). -/
inductive NodeStatus where
  | pending | running | completed | failed | skipped
deriving DecidableEq

/-- `DAGNode` from `dag.py` (dataclass): static definition fields plus
mutable execution state (`status`, `retry_count`, `result`,
`error_message`). -/
structure DAGNode where
  id : String
  name : String
  agentType : String
  agentConfig : List (String × Value) := []
  inputData : List (String × Value) := []
  dependencies : List String := []
  conditions : List (String × Value) := []
  retryCount : Nat := 0
  maxRetries : Nat := 3
  timeoutSeconds : Nat := 300
  status : NodeStatus := .pending
  result : Option Value := none
  errorMessage : Option String := none

/-- `DAGNode.can_execute` (dag.py 35-45): the node is PENDING and every
dependency is in the completed set. -/
def DAGNode.canExecute (n : DAGNode) (completedNodes : List String) : Bool :=
  n.status == .pending && n.dependencies.all (fun dep => completedNodes.contains dep)

/-- `DAGNode.should_skip` (dag.py 47-60): an empty `conditions` dict never
skips; with `type == "skip_if"`, skip iff `context_key` names a key present
in the context whose value equals `conditions.get("value")`. -/
def DAGNode.shouldSkip (n : DAGNode) (context : List (String × Value)) : Bool :=
  if n.conditions.isEmpty then false
  else if dictGet n.conditions "type" == some (.vstr "skip_if") then
    match dictGet n.conditions "context_key" with
    | some (.vstr key) =>
      if dictHas context key then
        Value.beq (dictGetD context key .vnone) (dictGetD n.conditions "value" .vnone)
      else false
    | _ => false
  else false

/-- A workflow DAG: the node list, in insertion order (models the
insertion-ordered `nodes` dict of `WorkflowDAG`; the `edges` dict always
mirrors `node.dependencies`). -/
abbrev WorkflowDAG := List DAGNode

/-- Lookup `self.nodes[node_id]`. -/
def nodesFind (dag : WorkflowDAG) (nodeId : String) : Option DAGNode :=
  dag.find? (fun n => n.id == nodeId)

/-- Number of dependencies of `n` that name declared nodes, counted with
multiplicity (the in-degree computed in `WorkflowDAG.validate`). -/
def existingDepCount (dag : WorkflowDAG) (n : DAGNode) : Nat :=
  (n.dependencies.filter (fun dep => dag.any (fun m => m.id == dep))).length

/-- One pass of the inner `for node_id, dependencies in self.edges.items()`
loop of `WorkflowDAG.validate`: decrement the in-degree of every node that
depends on `current` and collect the nodes whose in-degree reaches zero, in
iteration order. Degrees are integers, as in Python. -/
def kahnStep (dag : WorkflowDAG) (current : String) (indeg : List (String × Int)) :
    List (String × Int) × List String :=
  dag.foldl
    (fun acc n =>
      if n.dependencies.contains current then
        let d := (((acc.1.find? (fun p => p.1 == n.id)).map (·.2)).getD 0) - 1
        (acc.1.map (fun p => if p.1 == n.id then (p.1, d) else p),
         if d == 0 then acc.2 ++ [n.id] else acc.2)
      else acc)
    (indeg, [])

/-- The `while queue` loop of `WorkflowDAG.validate`, counting processed
nodes. Each node enters the queue at most once, so `dag.length` iterations
always suffice; `fuel` makes the recursion structural. -/
def kahnLoop (dag : WorkflowDAG) : Nat → List String → List (String × Int) → Nat → Nat
  | 0, _, _, processed => processed
  | _ + 1, [], _, processed => processed
  | fuel + 1, current :: rest, indeg, processed =>
    let step := kahnStep dag current indeg
    kahnLoop dag fuel (rest ++ step.2) step.1 (processed + 1)

/-- `WorkflowDAG.validate` (dag.py 119-146): Kahn's algorithm; the DAG is
acyclic iff the processed count equals the node count. -/
def dagValidate (dag : WorkflowDAG) : Bool :=
  let indeg := dag.map (fun n => (n.id, (existingDepCount dag n : Int)))
  let queue := (indeg.filter (fun p => p.2 == 0)).map (·.1)
  kahnLoop dag dag.length queue indeg 0 == dag.length

/-- `self.nodes[node_id].can_execute(completed_nodes)` on a node id. -/
def canExecuteId (dag : WorkflowDAG) (completed : List String) (nodeId : String) : Bool :=
  match nodesFind dag nodeId with
  | some n => n.canExecute completed
  | none => false

/-- Dropping at least one element makes a filtered list strictly shorter. -/
theorem length_filter_lt_of_dropped {α : Type} {l : List α} {q : α → Bool} {x : α}
    (hx : x ∈ l) (hqx : q x = false) : (l.filter q).length < l.length := by
  induction l with
  | nil => cases hx
  | cons a as ih =>
    simp only [List.filter_cons]
    rcases List.mem_cons.mp hx with rfl | hmem
    · rw [hqx]
      exact Nat.lt_succ_of_le (List.length_filter_le q as)
    · by_cases hqa : q a = true
      · simpa [hqa] using ih hmem
      · simp only [Bool.not_eq_true] at hqa
        rw [hqa]
        exact Nat.lt_succ_of_lt (ih hmem)

/-- The `while remaining_nodes` loop of `WorkflowDAG.get_execution_order`
(dag.py 157-173): collect the executable nodes as the next level, move them
from `remaining` to `completed`; `none` models the
"Unable to find executable nodes" `ValueError`. Every iteration with a
non-empty level removes at least one node from `remaining`, so starting the
fuel at `remaining.length` makes the fuel-exhaustion arm unreachable (the
Python loop needs at most that many iterations); the fuel only makes the
recursion structural. -/
def execOrderAux (dag : WorkflowDAG) (fuel : Nat) (remaining completed : List String) :
    Option (List (List String)) :=
  match fuel, remaining with
  | _, [] => some []
  | 0, _ :: _ => none
  | fuel + 1, _ :: _ =>
    let level := remaining.filter (canExecuteId dag completed)
    if level.isEmpty then none
    else
      match execOrderAux dag fuel
          (remaining.filter (fun nodeId => !canExecuteId dag completed nodeId))
          (completed ++ level) with
      | some rest => some (level :: rest)
      | none => none

/-- `WorkflowDAG.get_execution_order` (dag.py 148-174): validate, then build
levels; `none` models either raised `ValueError`. -/
def getExecutionOrder (dag : WorkflowDAG) : Option (List (List String)) :=
  if dagValidate dag then
    execOrderAux dag (dag.map (·.id)).length (dag.map (·.id)) []
  else none

/-- The outcome of one `await asyncio.wait_for(agent.run(...), timeout=...)`
call as observed by `TaskExecutor.execute_node`: a successful `AgentResult`
(with its `data` and `metadata`), a failure (`result.success == False`, the
executor re-raises `result.error_message or "Agent execution failed"`), or
an `asyncio.TimeoutError`. `BaseAgent.run` itself never raises (see
`agentRun` below), so these are the only cases. -/
inductive AgentOutcome where
  | ok (data : Value) (metadata : Value)
  | fail (errMsg : Option String)
  | timeout

/-- The message re-raised for a failed `AgentResult`:
`result.error_message or "Agent execution failed"` (Python `or`, so both
`None` and the empty string fall back to the default). -/
def failMessage : Option String → String
  | some m => if m == "" then "Agent execution failed" else m
  | none => "Agent execution failed"

/-- The context key `"node_<id>_output"`. -/
def outKey (nodeId : String) : String := "node_" ++ nodeId ++ "_output"

/-- The context key `"node_<id>_metadata"`. -/
def metaKey (nodeId : String) : String := "node_" ++ nodeId ++ "_metadata"

/-- Result of `TaskExecutor.execute_node`: the node object after mutation,
the context after mutation, the returned boolean, the number of times
`agent.run` was invoked, and the context writes performed (in order). -/
structure ExecResult where
  node : DAGNode
  ctx : List (String × Value)
  retBool : Bool
  invocations : Nat
  writes : List (String × Value)

/-- `TaskExecutor.execute_node` (executor.py 50-129). The agent registry is
the list of registered `agent_type` names; `behav inv` is the outcome of the
`inv`-th invocation of `agent.run` for this node during this launch. The
skip check, the RUNNING transition, agent lookup, the timeout branch (fails
immediately), and the generic exception branch (retry while
`retry_count < max_retries`) are translated directly; the recursion is the
source's recursive retry call. `fuel` only makes the recursion structural:
whenever `maxRetries - retryCount ≤ fuel` — which the `executeNode` wrapper
guarantees — the fuel-exhaustion arms are unreachable, because a retry
requires `retryCount < maxRetries` and each retry increments
`retryCount`. -/
def executeNodeAux (registry : List String) (behav : Nat → AgentOutcome) :
    Nat → DAGNode → List (String × Value) → Nat → ExecResult
  | fuel, node, ctx, inv =>
    if node.shouldSkip ctx then
      { node := { node with status := .skipped }, ctx := ctx, retBool := true,
        invocations := inv, writes := [] }
    else
      let node := { node with status := .running }
      if registry.contains node.agentType then
        match behav inv with
        | .ok data metadata =>
          { node := { node with status := .completed, result := some data },
            ctx := dictSet (dictSet ctx (outKey node.id) data) (metaKey node.id) metadata,
            retBool := true, invocations := inv + 1,
            writes := [(outKey node.id, data), (metaKey node.id, metadata)] }
        | .timeout =>
          let msg := "Node " ++ node.id ++ " timed out after "
            ++ toString node.timeoutSeconds ++ " seconds"
          { node := { node with status := .failed, errorMessage := some msg },
            ctx := ctx, retBool := false, invocations := inv + 1, writes := [] }
        | .fail errMsg =>
          let msg := failMessage errMsg
          if node.retryCount < node.maxRetries then
            match fuel with
            | f + 1 =>
              executeNodeAux registry behav f
                { node with retryCount := node.retryCount + 1, status := .pending } ctx (inv + 1)
            | 0 =>
              { node := { node with status := .failed, errorMessage := some msg },
                ctx := ctx, retBool := false, invocations := inv + 1, writes := [] }
          else
            { node := { node with status := .failed, errorMessage := some msg },
              ctx := ctx, retBool := false, invocations := inv + 1, writes := [] }
      else
        let msg := "Agent not found: " ++ node.agentType
        if node.retryCount < node.maxRetries then
          match fuel with
          | f + 1 =>
            executeNodeAux registry behav f
              { node with retryCount := node.retryCount + 1, status := .pending } ctx inv
          | 0 =>
            { node := { node with status := .failed, errorMessage := some msg },
              ctx := ctx, retBool := false, invocations := inv, writes := [] }
        else
          { node := { node with status := .failed, errorMessage := some msg },
            ctx := ctx, retBool := false, invocations := inv, writes := [] }

/-- `TaskExecutor.execute_node`: the retry recursion always terminates after
at most `maxRetries - retryCount` retries, so that much fuel is exact. -/
def executeNode (registry : List String) (behav : Nat → AgentOutcome)
    (node : DAGNode) (ctx : List (String × Value)) (inv : Nat) : ExecResult :=
  executeNodeAux registry behav (node.maxRetries - node.retryCount) node ctx inv

/-- The running state of `WorkflowEngine._execute_dag`: the (mutated) DAG,
the shared context, the `completed_nodes` and `failed_nodes` sets (as lists
in insertion order) and the accumulated context writes. -/
structure RunState where
  dag : WorkflowDAG
  ctx : List (String × Value)
  completed : List String
  failed : List String
  writes : List (String × Value)

/-- Replace the node with `n.id` (models in-place mutation of the shared
node object). -/
def updateNode (dag : WorkflowDAG) (n : DAGNode) : WorkflowDAG :=
  match dag with
  | [] => []
  | m :: rest => (if m.id == n.id then n else m) :: updateNode rest n

/-- Processing of one node of a level by `_execute_dag` (engine.py
130-155): a PENDING node is launched via the executor, then recorded in
`completed_nodes` when its executor returned `True` and in `failed_nodes`
otherwise; a non-PENDING node is not launched. -/
def runNodeStep (registry : List String) (behav : String → Nat → AgentOutcome)
    (st : RunState) (nodeId : String) : RunState :=
  match nodesFind st.dag nodeId with
  | none => st
  | some n =>
    if n.status == .pending then
      let r := executeNode registry (behav nodeId) n st.ctx 0
      { dag := updateNode st.dag r.node,
        ctx := r.ctx,
        completed := if r.retBool then st.completed ++ [nodeId] else st.completed,
        failed := if r.retBool then st.failed else st.failed ++ [nodeId],
        writes := st.writes ++ r.writes }
    else st

/-- One level of `_execute_dag` (engine.py 125-155): launch every node of
the level whose status is PENDING. The concurrent `asyncio.gather` is
sequentialised in level order. -/
def runLevel (registry : List String) (behav : String → Nat → AgentOutcome)
    (st : RunState) (level : List String) : RunState :=
  level.foldl (runNodeStep registry behav) st

/-- `conditions.get("optional", False)` of a node id, under Python
truthiness (the engine applies `not` to it). -/
def optionalFlag (dag : WorkflowDAG) (nodeId : String) : Bool :=
  match nodesFind dag nodeId with
  | some n => (dictGetD n.conditions "optional" (.vbool false)).truthy
  | none => false

/-- Result of `WorkflowEngine._execute_dag`. -/
structure DagRunResult where
  dag : WorkflowDAG
  ctx : List (String × Value)
  completed : List String
  failed : List String
  writes : List (String × Value)
  success : Bool

/-- `WorkflowEngine._execute_dag` (engine.py 112-163): compute the execution
order (`none` models the raised `ValueError`), run the levels in order, then
evaluate the critical-failure predicate exactly as written:
`any(id in failed and not optional(id) for id in failed)` and return
`len(failed) == 0 or not critical_failed`. -/
def executeDag (registry : List String) (behav : String → Nat → AgentOutcome)
    (dag : WorkflowDAG) (ctx0 : List (String × Value)) : Option DagRunResult :=
  match getExecutionOrder dag with
  | none => none
  | some levels =>
    let st := levels.foldl (runLevel registry behav)
      { dag := dag, ctx := ctx0, completed := [], failed := [], writes := [] }
    let criticalFailed := st.failed.any
      (fun nodeId => st.failed.contains nodeId && !optionalFlag st.dag nodeId)
    some { dag := st.dag, ctx := st.ctx, completed := st.completed,
           failed := st.failed, writes := st.writes,
           success := st.failed.isEmpty || !criticalFailed }

/-- Membership of a value in a list of values under Python `==`
(set membership in `validate_dag`). -/
def vmem (x : Value) (l : List Value) : Bool :=
  l.any (fun y => Value.beq x y)

/-- Whether a value is hashable in Python (lists and dicts are not; adding
an unhashable value to a set raises `TypeError`, which `validate_dag`'s
blanket `except` turns into a "DAG validation error"). -/
def Value.hashable : Value → Bool
  | .vlist _ => false
  | .vdict _ => false
  | _ => true

/-- `str(x)` as interpolated into `validate_dag`'s error messages; exact on
scalars, abbreviated on collections (the messages' text on collections is
not load-bearing for any theorem). -/
def Value.display : Value → String
  | .vnone => "None"
  | .vbool true => "True"
  | .vbool false => "False"
  | .vint n => toString n
  | .vstr s => s
  | .vlist _ => "<list>"
  | .vdict _ => "<dict>"

/-- The first `for i, node in enumerate(nodes)` loop of `validate_dag`
(validators.py 31-50): per-node shape checks, duplicate-ID detection and the
dependencies-must-be-a-list check, accumulating the `node_ids` set (kept in
insertion order). -/
def checkNodesLoop : List Value → Nat → List Value → Except String (List Value)
  | [], _, nodeIds => .ok nodeIds
  | node :: rest, i, nodeIds =>
    match node with
    | .vdict entries =>
      if !dictHas entries "id" then
        .error ("Node " ++ toString i ++ " missing required field: id")
      else if !dictHas entries "name" then
        .error ("Node " ++ toString i ++ " missing required field: name")
      else if !dictHas entries "agent_type" then
        .error ("Node " ++ toString i ++ " missing required field: agent_type")
      else
        let nodeId := dictGetD entries "id" .vnone
        if !nodeId.hashable then
          .error "DAG validation error: unhashable node ID"
        else if vmem nodeId nodeIds then
          .error ("Duplicate node ID: " ++ nodeId.display)
        else
          match dictGetD entries "dependencies" (.vlist []) with
          | .vlist _ => checkNodesLoop rest (i + 1) (nodeIds ++ [nodeId])
          | _ => .error ("Node " ++ nodeId.display ++ " dependencies must be a list")
    | _ => .error ("Node " ++ toString i ++ " must be a dictionary")

/-- The dependency list of a raw node dict (`node.get("dependencies", [])`),
as a list; only reached when the first loop has confirmed it is a list. -/
def rawDeps (node : Value) : List Value :=
  match node with
  | .vdict entries =>
    match dictGetD entries "dependencies" (.vlist []) with
    | .vlist l => l
    | _ => []
  | _ => []

/-- The `id` entry of a raw node dict; only reached when the first loop has
confirmed it exists. -/
def rawId (node : Value) : Value :=
  match node with
  | .vdict entries => dictGetD entries "id" .vnone
  | _ => .vnone

/-- The inner `for dep in dependencies` checks of the second loop of
`validate_dag` (validators.py 57-62). -/
def checkDepList (nodeId : Value) (nodeIds : List Value) : List Value → Option String
  | [] => none
  | dep :: rest =>
    if !dep.hashable then
      some "DAG validation error: unhashable dependency"
    else if !vmem dep nodeIds then
      some ("Node " ++ nodeId.display ++ " depends on non-existent node: " ++ dep.display)
    else if Value.beq dep nodeId then
      some ("Node " ++ nodeId.display ++ " cannot depend on itself")
    else checkDepList nodeId nodeIds rest

/-- The second `for node in nodes` loop of `validate_dag`
(validators.py 53-62). -/
def checkDepsLoop (nodeIds : List Value) : List Value → Option String
  | [] => none
  | node :: rest =>
    match checkDepList (rawId node) nodeIds (rawDeps node) with
    | some msg => some msg
    | none => checkDepsLoop nodeIds rest

/-- One pass of the inner loop of `_has_circular_dependency`
(validators.py 96-100), over node-ID values. -/
def vKahnStep (graph : List (Value × List Value)) (current : Value)
    (indeg : List (Value × Int)) : List (Value × Int) × List Value :=
  graph.foldl
    (fun acc p =>
      if vmem current p.2 then
        let d := (((acc.1.find? (fun q => Value.beq q.1 p.1)).map (·.2)).getD 0) - 1
        (acc.1.map (fun q => if Value.beq q.1 p.1 then (q.1, d) else q),
         if d == 0 then acc.2 ++ [p.1] else acc.2)
      else acc)
    (indeg, [])

/-- The `while queue` loop of `_has_circular_dependency`
(validators.py 91-100); as in `kahnLoop`, `n` iterations always suffice. -/
def vKahnLoop (graph : List (Value × List Value)) :
    Nat → List Value → List (Value × Int) → Nat → Nat
  | 0, _, _, processed => processed
  | _ + 1, [], _, processed => processed
  | fuel + 1, current :: rest, indeg, processed =>
    let step := vKahnStep graph current indeg
    vKahnLoop graph fuel (rest ++ step.2) step.1 (processed + 1)

/-- `_has_circular_dependency` (validators.py 74-103): Kahn's algorithm over
the raw node dicts; in-degrees are `len(dependencies)` (with multiplicity),
a cycle is reported iff the processed count differs from the node count. -/
def hasCircularDependency (nodes : List Value) : Bool :=
  let graph := nodes.map (fun node => (rawId node, rawDeps node))
  let indeg := graph.map (fun p => (p.1, (p.2.length : Int)))
  let queue := (indeg.filter (fun p => p.2 == 0)).map (·.1)
  vKahnLoop graph nodes.length queue indeg 0 != nodes.length

/-- `validate_dag` (validators.py 7-71): the full check sequence with its
early returns; the blanket `except` is modelled by the explicit
hashability branches above. -/
def validateDagDef (dagDefinition : Value) : Bool × String :=
  match dagDefinition with
  | .vdict entries =>
    match dictGetD entries "nodes" (.vlist []) with
    | .vlist nodeList =>
      if nodeList.length == 0 then (false, "DAG must contain at least one node")
      else
        match checkNodesLoop nodeList 0 [] with
        | .error msg => (false, msg)
        | .ok nodeIds =>
          match checkDepsLoop nodeIds nodeList with
          | some msg => (false, msg)
          | none =>
            if hasCircularDependency nodeList then
              (false, "DAG contains circular dependencies")
            else (true, "")
    | _ => (false, "Nodes must be a list")
  | _ => (false, "DAG definition must be a dictionary")

/-- `AgentResult` from `agents/base.py`. Costs (`Decimal`) are embedded as
integers of some fixed denomination. -/
structure AgentResult where
  success : Bool
  data : Value
  errorMessage : Option String := none
  executionTimeMs : Option Nat := none
  costEstimate : Option Int := none
  metadata : Option Value := none

/-- A Python call that either returns a value or raises an exception with
message `str(e)`. -/
inductive PyResult (α : Type) where
  | ok (a : α)
  | exn (msg : String)

/-- The failure result built by `BaseAgent.run`'s `except` block. -/
def agentFailResult (msg : String) (elapsedMs : Nat) : AgentResult :=
  { success := false, data := .vdict [], errorMessage := some msg,
    executionTimeMs := some elapsedMs }

/-- `BaseAgent.run` (base.py 86-132): validate the input (a `False` raises
`AgentError`), estimate the cost, execute, then stamp the elapsed time and
the cost estimate onto the result; any exception along the way is caught and
converted to a failure `AgentResult` carrying `str(e)` and the elapsed time.
`elapsedMs` abstracts the wall-clock measurement. -/
def agentRun (name : String) (validateInput : PyResult Bool)
    (costEstimate : PyResult Int) (execute : PyResult AgentResult)
    (elapsedMs : Nat) : AgentResult :=
  match validateInput with
  | .exn m => agentFailResult m elapsedMs
  | .ok false => agentFailResult ("Invalid input data for agent " ++ name) elapsedMs
  | .ok true =>
    match costEstimate with
    | .exn m => agentFailResult m elapsedMs
    | .ok cost =>
      match execute with
      | .exn m => agentFailResult m elapsedMs
      | .ok result =>
        { result with executionTimeMs := some elapsedMs, costEstimate := some cost }

/-- Split a character list at the first closing brace: returns the
characters before it and the characters after it (the brace consumed).
`none` when no closing brace occurs (the regex `\$\{([^}]+)\}` then has no
match at this position). -/
def splitAtBrace : List Char → Option (List Char × List Char)
  | [] => none
  | c :: rest =>
    if c = '\x7d' then some ([], rest)
    else
      match splitAtBrace rest with
      | some (key, rest') => some (c :: key, rest')
      | none => none

/-- `splitAtBrace` decomposes its input at the first closing brace. -/
theorem splitAtBrace_eq {l key rest : List Char}
    (h : splitAtBrace l = some (key, rest)) : l = key ++ '\x7d' :: rest := by
  induction l generalizing key rest with
  | nil => simp [splitAtBrace] at h
  | cons c cs ih =>
    by_cases hc : c = '\x7d'
    · subst hc
      simp [splitAtBrace] at h
      obtain ⟨h1, h2⟩ := h
      subst h1
      subst h2
      simp
    · simp only [splitAtBrace, if_neg hc] at h
      cases hsp : splitAtBrace cs with
      | none => rw [hsp] at h; cases h
      | some p =>
        obtain ⟨k', r'⟩ := p
        rw [hsp] at h
        simp only [Option.some.injEq, Prod.mk.injEq] at h
        obtain ⟨h1, h2⟩ := h
        subst h2
        have hcs := ih hsp
        subst h1
        simp [hcs]

/-- The key found by `splitAtBrace` contains no closing brace. -/
theorem splitAtBrace_no_brace {l key rest : List Char}
    (h : splitAtBrace l = some (key, rest)) : '\x7d' ∉ key := by
  induction l generalizing key rest with
  | nil => simp [splitAtBrace] at h
  | cons c cs ih =>
    by_cases hc : c = '\x7d'
    · subst hc
      simp [splitAtBrace] at h
      obtain ⟨h1, _⟩ := h
      subst h1
      simp
    · simp only [splitAtBrace, if_neg hc] at h
      cases hsp : splitAtBrace cs with
      | none => rw [hsp] at h; cases h
      | some p =>
        obtain ⟨k', r'⟩ := p
        rw [hsp] at h
        simp only [Option.some.injEq, Prod.mk.injEq] at h
        obtain ⟨h1, h2⟩ := h
        subst h1
        intro hmem
        rcases List.mem_cons.mp hmem with rfl | hmem'
        · exact hc rfl
        · exact ih hsp hmem'

/-- Splitting a list that starts with a brace-free prefix followed by a
closing brace finds exactly that prefix. -/
theorem splitAtBrace_of_no_brace {key rest : List Char} (h : '\x7d' ∉ key) :
    splitAtBrace (key ++ '\x7d' :: rest) = some (key, rest) := by
  induction key with
  | nil => simp [splitAtBrace]
  | cons c cs ih =>
    have hc : c ≠ '\x7d' := fun hcc => h (hcc ▸ List.mem_cons_self c cs)
    have hcs : '\x7d' ∉ cs := fun hm => h (List.mem_cons_of_mem c hm)
    simp only [List.cons_append, splitAtBrace, if_neg hc]
    rw [show cs.append ('\x7d' :: rest) = cs ++ '\x7d' :: rest from rfl, ih hcs]

/-- `splitAtBrace` returns a strictly shorter remainder. -/
theorem splitAtBrace_length {l key rest : List Char}
    (h : splitAtBrace l = some (key, rest)) : rest.length < l.length := by
  rw [splitAtBrace_eq h]
  simp only [List.length_append, List.length_cons]
  omega

/-- The string substituted for a matched `${key}`:
`str(context.get(key, match.group(0)))` — the context value rendered by
`lookup` when the key is present, the literal placeholder otherwise. -/
def replacementFor (lookup : String → Option String) (key : List Char) : List Char :=
  match lookup (String.mk key) with
  | some s => s.data
  | none => '$' :: '\x7b' :: (key ++ ['\x7d'])

/-- `re.sub(r'\$\{([^}]+)\}', replace_var, data)` from
`TaskExecutor._resolve_template_variables` (executor.py 147-158): scan left
to right; at `"${"`, if a closing brace follows with a non-empty key in
between, substitute and continue after the match; otherwise emit one
character and continue (the regex engine advances one position). -/
def reSubAux (lookup : String → Option String) : List Char → List Char
  | [] => []
  | [c] => [c]
  | c1 :: c2 :: rest =>
    if c1 = '$' ∧ c2 = '\x7b' then
      match hsp : splitAtBrace rest with
      | some (key, rest') =>
        if key.isEmpty then c1 :: reSubAux lookup (c2 :: rest)
        else replacementFor lookup key ++ reSubAux lookup rest'
      | none => c1 :: reSubAux lookup (c2 :: rest)
    else c1 :: reSubAux lookup (c2 :: rest)
termination_by l => l.length
decreasing_by
  all_goals simp only [List.length_cons]
  all_goals try omega
  all_goals (have hlen2 := splitAtBrace_length (by assumption); omega)

mutual

/-- `TaskExecutor._resolve_template_variables` (executor.py 147-167):
substitute in strings, recurse into dicts and lists, return everything else
unchanged. `toStr` abstracts Python's `str()` applied to context values. -/
def resolveTemplate (toStr : Value → String) (context : List (String × Value)) : Value → Value
  | .vstr s =>
    .vstr (String.mk (reSubAux (fun k => (dictGet context k).map toStr) s.data))
  | .vdict entries => .vdict (resolveTemplateDict toStr context entries)
  | .vlist items => .vlist (resolveTemplateList toStr context items)
  | v => v

/-- The dict comprehension branch of `_resolve_template_variables`. -/
def resolveTemplateDict (toStr : Value → String) (context : List (String × Value)) :
    List (String × Value) → List (String × Value)
  | [] => []
  | (k, v) :: rest =>
    (k, resolveTemplate toStr context v) :: resolveTemplateDict toStr context rest

/-- The list comprehension branch of `_resolve_template_variables`. -/
def resolveTemplateList (toStr : Value → String) (context : List (String × Value)) :
    List Value → List Value
  | [] => []
  | v :: rest =>
    resolveTemplate toStr context v :: resolveTemplateList toStr context rest

end

/-- `TaskExecutor._prepare_input_data` (executor.py 131-145): copy the
node's `input_data`, inject `dependency_<dep>` entries for dependencies
whose `node_<dep>_output` key exists in the context, then resolve template
variables. -/
def prepareInputData (toStr : Value → String) (node : DAGNode)
    (context : List (String × Value)) : List (String × Value) :=
  let inputData := node.dependencies.foldl
    (fun input dep =>
      match dictGet context (outKey dep) with
      | some v => dictSet input ("dependency_" ++ dep) v
      | none => input)
    node.inputData
  resolveTemplateDict toStr context inputData

/-! ### Executor step lemmas: one unfolding of `execute_node` per branch -/

/-- Skip branch (executor.py 70-73). -/
theorem exAux_skip (registry : List String) (behav : Nat → AgentOutcome)
    (fuel : Nat) (node : DAGNode) (ctx : List (String × Value)) (inv : Nat)
    (h : node.shouldSkip ctx = true) :
    executeNodeAux registry behav fuel node ctx inv =
      { node := { node with status := .skipped }, ctx := ctx, retBool := true,
        invocations := inv, writes := [] } := by
  simp [executeNodeAux, h]

/-- Success branch (executor.py 94-105). -/
theorem exAux_ok (registry : List String) (behav : Nat → AgentOutcome)
    (fuel : Nat) (node : DAGNode) (ctx : List (String × Value)) (inv : Nat)
    (d m : Value) (hs : node.shouldSkip ctx = false)
    (hr : node.agentType ∈ registry) (hb : behav inv = .ok d m) :
    executeNodeAux registry behav fuel node ctx inv =
      { node := { node with status := .completed, result := some d },
        ctx := dictSet (dictSet ctx (outKey node.id) d) (metaKey node.id) m,
        retBool := true, invocations := inv + 1,
        writes := [(outKey node.id, d), (metaKey node.id, m)] } := by
  simp [executeNodeAux, hs, hr, hb]

/-- Timeout branch (executor.py 109-114): fails at once, no retry. -/
theorem exAux_timeout (registry : List String) (behav : Nat → AgentOutcome)
    (fuel : Nat) (node : DAGNode) (ctx : List (String × Value)) (inv : Nat)
    (hs : node.shouldSkip ctx = false)
    (hr : node.agentType ∈ registry) (hb : behav inv = .timeout) :
    executeNodeAux registry behav fuel node ctx inv =
      { node := { node with
          status := .failed,
          errorMessage := some ("Node " ++ node.id ++ " timed out after "
            ++ toString node.timeoutSeconds ++ " seconds") },
        ctx := ctx, retBool := false, invocations := inv + 1, writes := [] } := by
  simp [executeNodeAux, hs, hr, hb]

/-- Generic-exception branch with retries left (executor.py 121-125). -/
theorem exAux_fail_retry (registry : List String) (behav : Nat → AgentOutcome)
    (f : Nat) (node : DAGNode) (ctx : List (String × Value)) (inv : Nat)
    (e : Option String) (hs : node.shouldSkip ctx = false)
    (hr : node.agentType ∈ registry) (hb : behav inv = .fail e)
    (hrc : node.retryCount < node.maxRetries) :
    executeNodeAux registry behav (f + 1) node ctx inv =
      executeNodeAux registry behav f
        { node with retryCount := node.retryCount + 1, status := .pending } ctx (inv + 1) := by
  conv_lhs => rw [executeNodeAux]
  simp [hs, hr, hb, hrc]

/-- Generic-exception branch with retries exhausted (executor.py 126-129). -/
theorem exAux_fail_stop (registry : List String) (behav : Nat → AgentOutcome)
    (fuel : Nat) (node : DAGNode) (ctx : List (String × Value)) (inv : Nat)
    (e : Option String) (hs : node.shouldSkip ctx = false)
    (hr : node.agentType ∈ registry) (hb : behav inv = .fail e)
    (hrc : ¬ node.retryCount < node.maxRetries) :
    executeNodeAux registry behav fuel node ctx inv =
      { node := { node with
          status := .failed, errorMessage := some (failMessage e) },
        ctx := ctx, retBool := false, invocations := inv + 1, writes := [] } := by
  cases fuel <;> simp [executeNodeAux, hs, hr, hb, hrc]

/-- Unknown-agent branch with retries left: the raised
`Exception("Agent not found: …")` is caught by the generic handler, which
retries; `agent.run` is not invoked. -/
theorem exAux_notfound_retry (registry : List String) (behav : Nat → AgentOutcome)
    (f : Nat) (node : DAGNode) (ctx : List (String × Value)) (inv : Nat)
    (hs : node.shouldSkip ctx = false)
    (hr : node.agentType ∉ registry)
    (hrc : node.retryCount < node.maxRetries) :
    executeNodeAux registry behav (f + 1) node ctx inv =
      executeNodeAux registry behav f
        { node with retryCount := node.retryCount + 1, status := .pending } ctx inv := by
  conv_lhs => rw [executeNodeAux]
  simp [hs, hr, hrc]

/-- Unknown-agent branch with retries exhausted. -/
theorem exAux_notfound_stop (registry : List String) (behav : Nat → AgentOutcome)
    (fuel : Nat) (node : DAGNode) (ctx : List (String × Value)) (inv : Nat)
    (hs : node.shouldSkip ctx = false)
    (hr : node.agentType ∉ registry)
    (hrc : ¬ node.retryCount < node.maxRetries) :
    executeNodeAux registry behav fuel node ctx inv =
      { node := { node with
          status := .failed,
          errorMessage := some ("Agent not found: " ++ node.agentType) },
        ctx := ctx, retBool := false, invocations := inv, writes := [] } := by
  cases fuel <;> simp [executeNodeAux, hs, hr, hrc]

/-- Generic-exception branch when the structural fuel is exhausted: returns
the same failure record as the retries-exhausted branch (unreachable when
the fuel is at least `maxRetries - retryCount`). -/
theorem exAux_fail_zero (registry : List String) (behav : Nat → AgentOutcome)
    (node : DAGNode) (ctx : List (String × Value)) (inv : Nat)
    (e : Option String) (hs : node.shouldSkip ctx = false)
    (hr : node.agentType ∈ registry) (hb : behav inv = .fail e)
    (hrc : node.retryCount < node.maxRetries) :
    executeNodeAux registry behav 0 node ctx inv =
      { node := { node with
          status := .failed, errorMessage := some (failMessage e) },
        ctx := ctx, retBool := false, invocations := inv + 1, writes := [] } := by
  simp [executeNodeAux, hs, hr, hb, hrc]

/-- Unknown-agent branch when the structural fuel is exhausted (likewise
unreachable under sufficient fuel). -/
theorem exAux_notfound_zero (registry : List String) (behav : Nat → AgentOutcome)
    (node : DAGNode) (ctx : List (String × Value)) (inv : Nat)
    (hs : node.shouldSkip ctx = false)
    (hr : node.agentType ∉ registry)
    (hrc : node.retryCount < node.maxRetries) :
    executeNodeAux registry behav 0 node ctx inv =
      { node := { node with
          status := .failed,
          errorMessage := some ("Agent not found: " ++ node.agentType) },
        ctx := ctx, retBool := false, invocations := inv, writes := [] } := by
  simp [executeNodeAux, hs, hr, hrc]

/-- `execute_node` never changes a node's identity, conditions, retry
budget or dependency list. -/
theorem exAux_preserves (registry : List String) (behav : Nat → AgentOutcome)
    (ctx : List (String × Value)) :
    ∀ (fuel : Nat) (node : DAGNode) (inv : Nat),
      (executeNodeAux registry behav fuel node ctx inv).node.id = node.id ∧
      (executeNodeAux registry behav fuel node ctx inv).node.conditions = node.conditions ∧
      (executeNodeAux registry behav fuel node ctx inv).node.maxRetries = node.maxRetries ∧
      (executeNodeAux registry behav fuel node ctx inv).node.dependencies = node.dependencies := by
  intro fuel
  induction fuel with
  | zero =>
    intro node inv
    cases hs : node.shouldSkip ctx with
    | true => rw [exAux_skip _ _ _ _ _ _ hs]; exact ⟨rfl, rfl, rfl, rfl⟩
    | false =>
      by_cases hr : node.agentType ∈ registry
      · cases hb : behav inv with
        | ok d m => rw [exAux_ok _ _ _ _ _ _ _ _ hs hr hb]; exact ⟨rfl, rfl, rfl, rfl⟩
        | timeout => rw [exAux_timeout _ _ _ _ _ _ hs hr hb]; exact ⟨rfl, rfl, rfl, rfl⟩
        | fail e =>
          by_cases hrc : node.retryCount < node.maxRetries
          · rw [exAux_fail_zero _ _ _ _ _ _ hs hr hb hrc]; exact ⟨rfl, rfl, rfl, rfl⟩
          · rw [exAux_fail_stop _ _ _ _ _ _ _ hs hr hb hrc]; exact ⟨rfl, rfl, rfl, rfl⟩
      · by_cases hrc : node.retryCount < node.maxRetries
        · rw [exAux_notfound_zero _ _ _ _ _ hs hr hrc]; exact ⟨rfl, rfl, rfl, rfl⟩
        · rw [exAux_notfound_stop _ _ _ _ _ _ hs hr hrc]; exact ⟨rfl, rfl, rfl, rfl⟩
  | succ f ih =>
    intro node inv
    cases hs : node.shouldSkip ctx with
    | true => rw [exAux_skip _ _ _ _ _ _ hs]; exact ⟨rfl, rfl, rfl, rfl⟩
    | false =>
      by_cases hr : node.agentType ∈ registry
      · cases hb : behav inv with
        | ok d m => rw [exAux_ok _ _ _ _ _ _ _ _ hs hr hb]; exact ⟨rfl, rfl, rfl, rfl⟩
        | timeout => rw [exAux_timeout _ _ _ _ _ _ hs hr hb]; exact ⟨rfl, rfl, rfl, rfl⟩
        | fail e =>
          by_cases hrc : node.retryCount < node.maxRetries
          · rw [exAux_fail_retry _ _ _ _ _ _ _ hs hr hb hrc]; exact ih _ _
          · rw [exAux_fail_stop _ _ _ _ _ _ _ hs hr hb hrc]; exact ⟨rfl, rfl, rfl, rfl⟩
      · by_cases hrc : node.retryCount < node.maxRetries
        · rw [exAux_notfound_retry _ _ _ _ _ _ hs hr hrc]; exact ih _ _
        · rw [exAux_notfound_stop _ _ _ _ _ _ hs hr hrc]; exact ⟨rfl, rfl, rfl, rfl⟩

/-- The three possible outcomes of one `execute_node` launch, as observed by
the engine: skipped (returns `True`, no context write), completed (returns
`True`, writes exactly the node's output and metadata keys), or failed
(returns `False`, no context write). -/
def ExecShape (node : DAGNode) (ctx : List (String × Value)) (r : ExecResult) : Prop :=
  (r.retBool = true ∧ r.node.status = .skipped ∧ r.writes = [] ∧ r.ctx = ctx) ∨
  (r.retBool = true ∧ r.node.status = .completed ∧
    ∃ d m, r.writes = [(outKey node.id, d), (metaKey node.id, m)] ∧
      r.ctx = dictSet (dictSet ctx (outKey node.id) d) (metaKey node.id) m) ∨
  (r.retBool = false ∧ r.node.status = .failed ∧ r.writes = [] ∧ r.ctx = ctx)

/-- Every `execute_node` launch lands in one of the three shapes. -/
theorem exAux_shape (registry : List String) (behav : Nat → AgentOutcome)
    (ctx : List (String × Value)) :
    ∀ (fuel : Nat) (node : DAGNode) (inv : Nat),
      ExecShape node ctx (executeNodeAux registry behav fuel node ctx inv) := by
  intro fuel
  induction fuel with
  | zero =>
    intro node inv
    cases hs : node.shouldSkip ctx with
    | true => rw [exAux_skip _ _ _ _ _ _ hs]; exact Or.inl ⟨rfl, rfl, rfl, rfl⟩
    | false =>
      by_cases hr : node.agentType ∈ registry
      · cases hb : behav inv with
        | ok d m =>
          rw [exAux_ok _ _ _ _ _ _ _ _ hs hr hb]
          exact Or.inr (Or.inl ⟨rfl, rfl, d, m, rfl, rfl⟩)
        | timeout =>
          rw [exAux_timeout _ _ _ _ _ _ hs hr hb]
          exact Or.inr (Or.inr ⟨rfl, rfl, rfl, rfl⟩)
        | fail e =>
          by_cases hrc : node.retryCount < node.maxRetries
          · rw [exAux_fail_zero _ _ _ _ _ _ hs hr hb hrc]
            exact Or.inr (Or.inr ⟨rfl, rfl, rfl, rfl⟩)
          · rw [exAux_fail_stop _ _ _ _ _ _ _ hs hr hb hrc]
            exact Or.inr (Or.inr ⟨rfl, rfl, rfl, rfl⟩)
      · by_cases hrc : node.retryCount < node.maxRetries
        · rw [exAux_notfound_zero _ _ _ _ _ hs hr hrc]
          exact Or.inr (Or.inr ⟨rfl, rfl, rfl, rfl⟩)
        · rw [exAux_notfound_stop _ _ _ _ _ _ hs hr hrc]
          exact Or.inr (Or.inr ⟨rfl, rfl, rfl, rfl⟩)
  | succ f ih =>
    intro node inv
    cases hs : node.shouldSkip ctx with
    | true => rw [exAux_skip _ _ _ _ _ _ hs]; exact Or.inl ⟨rfl, rfl, rfl, rfl⟩
    | false =>
      by_cases hr : node.agentType ∈ registry
      · cases hb : behav inv with
        | ok d m =>
          rw [exAux_ok _ _ _ _ _ _ _ _ hs hr hb]
          exact Or.inr (Or.inl ⟨rfl, rfl, d, m, rfl, rfl⟩)
        | timeout =>
          rw [exAux_timeout _ _ _ _ _ _ hs hr hb]
          exact Or.inr (Or.inr ⟨rfl, rfl, rfl, rfl⟩)
        | fail e =>
          by_cases hrc : node.retryCount < node.maxRetries
          · rw [exAux_fail_retry _ _ _ _ _ _ _ hs hr hb hrc]
            exact ih _ _
          · rw [exAux_fail_stop _ _ _ _ _ _ _ hs hr hb hrc]
            exact Or.inr (Or.inr ⟨rfl, rfl, rfl, rfl⟩)
      · by_cases hrc : node.retryCount < node.maxRetries
        · rw [exAux_notfound_retry _ _ _ _ _ _ hs hr hrc]
          exact ih _ _
        · rw [exAux_notfound_stop _ _ _ _ _ _ hs hr hrc]
          exact Or.inr (Or.inr ⟨rfl, rfl, rfl, rfl⟩)

/-- The number of agent invocations grows by at most `fuel + 1` in one
`execute_node` launch. -/
theorem exAux_invocations (registry : List String) (behav : Nat → AgentOutcome)
    (ctx : List (String × Value)) :
    ∀ (fuel : Nat) (node : DAGNode) (inv : Nat),
      (executeNodeAux registry behav fuel node ctx inv).invocations ≤ inv + fuel + 1 := by
  intro fuel
  induction fuel with
  | zero =>
    intro node inv
    cases hs : node.shouldSkip ctx with
    | true => rw [exAux_skip _ _ _ _ _ _ hs] <;> (dsimp only; omega)
    | false =>
      by_cases hr : node.agentType ∈ registry
      · cases hb : behav inv with
        | ok d m => rw [exAux_ok _ _ _ _ _ _ _ _ hs hr hb] <;> (dsimp only; omega)
        | timeout => rw [exAux_timeout _ _ _ _ _ _ hs hr hb] <;> (dsimp only; omega)
        | fail e =>
          by_cases hrc : node.retryCount < node.maxRetries
          · rw [exAux_fail_zero _ _ _ _ _ _ hs hr hb hrc] <;> (dsimp only; omega)
          · rw [exAux_fail_stop _ _ _ _ _ _ _ hs hr hb hrc] <;> (dsimp only; omega)
      · by_cases hrc : node.retryCount < node.maxRetries
        · rw [exAux_notfound_zero _ _ _ _ _ hs hr hrc] <;> (dsimp only; omega)
        · rw [exAux_notfound_stop _ _ _ _ _ _ hs hr hrc] <;> (dsimp only; omega)
  | succ f ih =>
    intro node inv
    cases hs : node.shouldSkip ctx with
    | true => rw [exAux_skip _ _ _ _ _ _ hs] <;> (dsimp only; omega)
    | false =>
      by_cases hr : node.agentType ∈ registry
      · cases hb : behav inv with
        | ok d m => rw [exAux_ok _ _ _ _ _ _ _ _ hs hr hb] <;> (dsimp only; omega)
        | timeout => rw [exAux_timeout _ _ _ _ _ _ hs hr hb] <;> (dsimp only; omega)
        | fail e =>
          by_cases hrc : node.retryCount < node.maxRetries
          · rw [exAux_fail_retry _ _ _ _ _ _ _ hs hr hb hrc]
            exact le_trans (ih _ _) (by omega)
          · rw [exAux_fail_stop _ _ _ _ _ _ _ hs hr hb hrc] <;> (dsimp only; omega)
      · by_cases hrc : node.retryCount < node.maxRetries
        · rw [exAux_notfound_retry _ _ _ _ _ _ hs hr hrc]
          exact le_trans (ih _ _) (by omega)
        · rw [exAux_notfound_stop _ _ _ _ _ _ hs hr hrc] <;> (dsimp only; omega)

/-- The five agent types registered by `TaskExecutor._initialize_agents`
(executor.py 24-35). -/
def defaultRegistry : List String :=
  ["web_search", "text_writing", "data_analysis", "email_sender", "file_processor"]

/-! ### Claims C2, C4, C5 -/

/-- Helper for C4: with an unknown agent type, every attempt raises
`Exception("Agent not found: …")`, the generic handler consumes one retry
per attempt, and the node ends FAILED with `retry_count == max_retries`
while `agent.run` is never invoked. -/
theorem exAux_notfound_all (registry : List String) (behav : Nat → AgentOutcome)
    (ctx : List (String × Value)) :
    ∀ (fuel : Nat) (node : DAGNode) (inv : Nat),
      node.shouldSkip ctx = false →
      node.agentType ∉ registry →
      node.maxRetries - node.retryCount ≤ fuel →
      node.retryCount ≤ node.maxRetries →
      executeNodeAux registry behav fuel node ctx inv =
        { node := { node with
            retryCount := node.maxRetries,
            status := .failed,
            errorMessage := some ("Agent not found: " ++ node.agentType) },
          ctx := ctx, retBool := false, invocations := inv, writes := [] } := by
  intro fuel
  induction fuel with
  | zero =>
    intro node inv hs hr hle hrc
    have heq : node.retryCount = node.maxRetries := by omega
    rw [exAux_notfound_stop _ _ _ _ _ _ hs hr (by omega)]
    simp [← heq]
  | succ f ih =>
    intro node inv hs hr hle hrc
    by_cases hlt : node.retryCount < node.maxRetries
    · rw [exAux_notfound_retry _ _ _ _ _ _ hs hr hlt]
      have := ih { node with retryCount := node.retryCount + 1, status := .pending } inv
        hs hr (by simp; omega) (by simp; omega)
      simpa using this
    · have heq : node.retryCount = node.maxRetries := by omega
      rw [exAux_notfound_stop _ _ _ _ _ _ hs hr hlt]
      simp [← heq]

/-- Claim C2 counterexample: a node with `max_retries = 2` whose agent
always times out is attempted exactly once (not three times) and ends
FAILED with `retry_count == 0` (not 2) — the `except asyncio.TimeoutError`
branch fails the node immediately, before the retry logic. -/
theorem c2_timeout_counterexample :
    (executeNode defaultRegistry (fun _ => .timeout)
        { id := "n1", name := "n1", agentType := "web_search", maxRetries := 2,
          timeoutSeconds := 1 } [] 0).invocations = 1 ∧
    (executeNode defaultRegistry (fun _ => .timeout)
        { id := "n1", name := "n1", agentType := "web_search", maxRetries := 2,
          timeoutSeconds := 1 } [] 0).node.retryCount = 0 ∧
    (executeNode defaultRegistry (fun _ => .timeout)
        { id := "n1", name := "n1", agentType := "web_search", maxRetries := 2,
          timeoutSeconds := 1 } [] 0).node.status = .failed ∧
    ¬ ((executeNode defaultRegistry (fun _ => .timeout)
        { id := "n1", name := "n1", agentType := "web_search", maxRetries := 2,
          timeoutSeconds := 1 } [] 0).invocations = 3 ∧
       (executeNode defaultRegistry (fun _ => .timeout)
        { id := "n1", name := "n1", agentType := "web_search", maxRetries := 2,
          timeoutSeconds := 1 } [] 0).node.retryCount = 2) := by
  refine ⟨by decide, by decide, by decide, ?_⟩
  intro h
  exact absurd h.1 (by decide)

/-- Claim C2 (amended): when the agent invocation for a non-skipped node
with a registered agent type times out, `execute_node` fails the node
immediately — status FAILED, the timeout error message, `retry_count`
unchanged, exactly one invocation, no context write and no retry; the retry
policy applies only to non-timeout failures. -/
theorem c2_timeout_no_retry (registry : List String) (behav : Nat → AgentOutcome)
    (node : DAGNode) (ctx : List (String × Value))
    (hs : node.shouldSkip ctx = false)
    (hr : node.agentType ∈ registry)
    (hb : behav 0 = .timeout) :
    executeNode registry behav node ctx 0 =
      { node := { node with
          status := .failed,
          errorMessage := some ("Node " ++ node.id ++ " timed out after "
            ++ toString node.timeoutSeconds ++ " seconds") },
        ctx := ctx, retBool := false, invocations := 1, writes := [] } := by
  unfold executeNode
  rw [exAux_timeout _ _ _ _ _ _ hs hr hb]

/-- Witness for `c2_timeout_no_retry` at a concrete node. -/
theorem c2_timeout_no_retry_witness :
    executeNode defaultRegistry (fun _ => .timeout)
        { id := "n1", name := "n1", agentType := "web_search", maxRetries := 2,
          timeoutSeconds := 1 } [] 0 =
      { node := { id := "n1", name := "n1", agentType := "web_search",
                  maxRetries := 2, timeoutSeconds := 1, status := .failed,
                  errorMessage := some "Node n1 timed out after 1 seconds" },
        ctx := [], retBool := false, invocations := 1, writes := [] } := by
  have := c2_timeout_no_retry defaultRegistry (fun _ => .timeout)
    { id := "n1", name := "n1", agentType := "web_search", maxRetries := 2,
      timeoutSeconds := 1 } [] (by decide) (by decide) rfl
  simpa using this

/-- Claim C4 counterexample: a node with `max_retries = 3` and an agent
type missing from the registry ends FAILED with `retry_count == 3` — the
lookup failure is retried like any other exception and consumes all retry
attempts (the claim said it consumes none), although `agent.run` is indeed
never invoked. -/
theorem c4_unknown_agent_counterexample :
    (executeNode defaultRegistry (fun _ => .ok .vnone .vnone)
        { id := "n1", name := "n1", agentType := "nonexistent", maxRetries := 3 }
        [] 0).node.retryCount = 3 ∧
    (executeNode defaultRegistry (fun _ => .ok .vnone .vnone)
        { id := "n1", name := "n1", agentType := "nonexistent", maxRetries := 3 }
        [] 0).invocations = 0 ∧
    (executeNode defaultRegistry (fun _ => .ok .vnone .vnone)
        { id := "n1", name := "n1", agentType := "nonexistent", maxRetries := 3 }
        [] 0).node.status = .failed ∧
    (executeNode defaultRegistry (fun _ => .ok .vnone .vnone)
        { id := "n1", name := "n1", agentType := "nonexistent", maxRetries := 3 }
        [] 0).node.errorMessage = some "Agent not found: nonexistent" := by
  have h := exAux_notfound_all defaultRegistry (fun _ => .ok .vnone .vnone) [] 3
    { id := "n1", name := "n1", agentType := "nonexistent", maxRetries := 3 } 0
    (by decide) (by decide) (by decide) (by decide)
  have e1 : executeNode defaultRegistry (fun _ => .ok .vnone .vnone)
      { id := "n1", name := "n1", agentType := "nonexistent", maxRetries := 3 } [] 0 =
      executeNodeAux defaultRegistry (fun _ => .ok .vnone .vnone) 3
      { id := "n1", name := "n1", agentType := "nonexistent", maxRetries := 3 } [] 0 := rfl
  rw [e1, h]
  exact ⟨rfl, rfl, rfl, rfl⟩

/-- Claim C4 (amended): when the agent registry has no agent for
`node.agent_type`, every attempt of `execute_node` raises
`Exception("Agent not found: …")`, which the generic retry handler retries;
the node ends FAILED with that error message only after the retries are
exhausted (`retry_count == max_retries`), and `agent.run` is never invoked
for the node. -/
theorem c4_unknown_agent_retried (registry : List String) (behav : Nat → AgentOutcome)
    (node : DAGNode) (ctx : List (String × Value))
    (hs : node.shouldSkip ctx = false)
    (hr : node.agentType ∉ registry)
    (hrc : node.retryCount ≤ node.maxRetries) :
    executeNode registry behav node ctx 0 =
      { node := { node with
          retryCount := node.maxRetries,
          status := .failed,
          errorMessage := some ("Agent not found: " ++ node.agentType) },
        ctx := ctx, retBool := false, invocations := 0, writes := [] } := by
  unfold executeNode
  exact exAux_notfound_all registry behav ctx _ node 0 hs hr le_rfl hrc

/-- Witness for `c4_unknown_agent_retried` at a concrete node. -/
theorem c4_unknown_agent_retried_witness :
    executeNode defaultRegistry (fun _ => .ok .vnone .vnone)
        { id := "n1", name := "n1", agentType := "nonexistent", maxRetries := 3 } [] 0 =
      { node := { id := "n1", name := "n1", agentType := "nonexistent",
                  maxRetries := 3, retryCount := 3, status := .failed,
                  errorMessage := some "Agent not found: nonexistent" },
        ctx := [], retBool := false, invocations := 0, writes := [] } := by
  have := c4_unknown_agent_retried defaultRegistry (fun _ => .ok .vnone .vnone)
    { id := "n1", name := "n1", agentType := "nonexistent", maxRetries := 3 } []
    (by decide) (by decide) (by decide)
  simpa using this

/-- Claim C5: for a node whose `retry_count` starts at 0, one
`execute_node` launch terminates (it is a total function of the model) and
invokes the agent at most `max_retries + 1` times: retrying requires
`retry_count < max_retries` and each retry increments `retry_count`. -/
theorem c5_attempt_bound (registry : List String) (behav : Nat → AgentOutcome)
    (node : DAGNode) (ctx : List (String × Value))
    (h0 : node.retryCount = 0) :
    (executeNode registry behav node ctx 0).invocations ≤ node.maxRetries + 1 := by
  unfold executeNode
  have := exAux_invocations registry behav ctx (node.maxRetries - node.retryCount) node 0
  omega

/-- Witness for `c5_attempt_bound` at a concrete node (an agent failing on
every attempt: exactly `max_retries + 1 = 4` invocations occur, within the
bound). -/
theorem c5_attempt_bound_witness :
    ({ id := "n1", name := "n1", agentType := "web_search" } : DAGNode).retryCount = 0 ∧
    (executeNode defaultRegistry (fun _ => .fail (some "boom"))
        { id := "n1", name := "n1", agentType := "web_search" } [] 0).invocations
      ≤ ({ id := "n1", name := "n1", agentType := "web_search" } : DAGNode).maxRetries + 1 :=
  ⟨rfl, c5_attempt_bound defaultRegistry (fun _ => .fail (some "boom"))
    { id := "n1", name := "n1", agentType := "web_search" } [] rfl⟩

/-! ### Claim C10 -/

/-- Claim C10: `BaseAgent.run` always returns an `AgentResult` and never
propagates an exception (in the model it is a total function into
`AgentResult`, mirroring the blanket `except Exception`): whatever the
outcomes of input validation, cost estimation and execution, the measured
execution time is always recorded; a `False` from `validate_input` or an
exception raised anywhere yields the failure result (success false, error
message filled, elapsed time recorded); and when everything succeeds the
result is the `execute` result augmented with `execution_time_ms` and
`cost_estimate`. -/
theorem c10_agent_run_total (name : String) (vi : PyResult Bool) (ce : PyResult Int)
    (ex : PyResult AgentResult) (t : Nat) :
    (agentRun name vi ce ex t).executionTimeMs = some t ∧
    (∀ m t', agentFailResult m t' =
      { success := false, data := .vdict [], errorMessage := some m,
        executionTimeMs := some t', costEstimate := none, metadata := none }) ∧
    (∀ m, vi = .exn m → agentRun name vi ce ex t = agentFailResult m t) ∧
    (vi = .ok false →
      agentRun name vi ce ex t =
        agentFailResult ("Invalid input data for agent " ++ name) t) ∧
    (∀ m, vi = .ok true → ce = .exn m → agentRun name vi ce ex t = agentFailResult m t) ∧
    (∀ c m, vi = .ok true → ce = .ok c → ex = .exn m →
      agentRun name vi ce ex t = agentFailResult m t) ∧
    (∀ c r, vi = .ok true → ce = .ok c → ex = .ok r →
      agentRun name vi ce ex t =
        { r with executionTimeMs := some t, costEstimate := some c }) := by
  cases vi with
  | exn m => simp [agentRun, agentFailResult]
  | ok b =>
    cases b
    · simp [agentRun, agentFailResult]
    · cases ce with
      | exn m => simp [agentRun, agentFailResult]
      | ok c =>
        cases ex with
        | exn m => simp [agentRun, agentFailResult]
        | ok r => simp [agentRun, agentFailResult]

/-- Witness for `c10_agent_run_total`: the clean path at concrete inputs. -/
theorem c10_agent_run_total_witness :
    agentRun "writer" (.ok true) (.ok 5)
        (.ok { success := true, data := .vint 42, metadata := some (.vdict []) }) 7 =
      { success := true, data := .vint 42, metadata := some (.vdict []),
        executionTimeMs := some 7, costEstimate := some 5 } :=
  (c10_agent_run_total "writer" (.ok true) (.ok 5)
      (.ok { success := true, data := .vint 42, metadata := some (.vdict []) }) 7).2.2.2.2.2.2
    5 { success := true, data := .vint 42, metadata := some (.vdict []) } rfl rfl rfl

/-! ### Claim C8: template resolution -/

/-- Strings without a dollar sign are left unchanged by the regex
substitution. -/
theorem reSub_no_dollar (lk : String → Option String) :
    ∀ (n : Nat) (s : List Char), s.length ≤ n → '$' ∉ s → reSubAux lk s = s := by
  intro n
  induction n with
  | zero =>
    intro s hlen _
    have : s = [] := List.eq_nil_of_length_eq_zero (Nat.le_zero.mp hlen)
    subst this
    rw [reSubAux]
  | succ n ih =>
    intro s hlen hd
    match s with
    | [] => rw [reSubAux]
    | [c] => rw [reSubAux]
    | c1 :: c2 :: rest =>
      have hc1 : c1 ≠ '$' := fun hc => hd (hc ▸ List.mem_cons_self c1 (c2 :: rest))
      have hd' : '$' ∉ c2 :: rest := fun hm => hd (List.mem_cons_of_mem c1 hm)
      rw [reSubAux, if_neg (fun hcc => hc1 hcc.1)]
      have hlen' : (c2 :: rest).length ≤ n := by
        simp only [List.length_cons] at hlen ⊢
        omega
      rw [ih (c2 :: rest) hlen' hd']

/-- The regex substitution replaces a `${key}` occurrence (with `key`
non-empty and brace-free, preceded by a dollar-free prefix) by
`replacementFor lk key`, and continues scanning after the match. -/
theorem reSub_placeholder (lk : String → Option String) :
    ∀ (a k b : List Char), '$' ∉ a → '\x7d' ∉ k → k ≠ [] →
      reSubAux lk (a ++ '$' :: '\x7b' :: (k ++ '\x7d' :: b)) =
        a ++ replacementFor lk k ++ reSubAux lk b := by
  intro a
  induction a with
  | nil =>
    intro k b _ hk hne
    simp only [List.nil_append]
    have hsp' : splitAtBrace (k ++ '\x7d' :: b) = some (k, b) :=
      splitAtBrace_of_no_brace hk
    cases hkk : k ++ '\x7d' :: b with
    | nil => exact absurd hkk (by simp)
    | cons x xs =>
      rw [hkk] at hsp'
      rw [reSubAux, if_pos ⟨rfl, rfl⟩]
      split
      · rename_i key rest' hsp
        rw [hsp'] at hsp
        simp only [Option.some.injEq, Prod.mk.injEq] at hsp
        obtain ⟨h1, h2⟩ := hsp
        subst h1
        subst h2
        simp [List.isEmpty_iff, hne]
      · rename_i hsp
        rw [hsp'] at hsp
        cases hsp
  | cons c a' ih =>
    intro k b hd hk hne
    have hc : c ≠ '$' := fun hcc => hd (hcc ▸ List.mem_cons_self c a')
    have hd' : '$' ∉ a' := fun hm => hd (List.mem_cons_of_mem c hm)
    cases ha' : a' with
    | nil =>
      subst ha'
      simp only [List.cons_append, List.nil_append]
      rw [reSubAux, if_neg (fun hcc => hc hcc.1)]
      have hbase := ih k b (by simp) hk hne
      simp only [List.nil_append] at hbase
      rw [hbase]
    | cons c2 a'' =>
      subst ha'
      simp only [List.cons_append]
      rw [reSubAux, if_neg (fun hcc => hc hcc.1)]
      have hstep := ih k b hd' hk hne
      simp only [List.cons_append] at hstep
      rw [hstep]

/-- The dict branch of the resolver is an entrywise map. -/
theorem resolveTemplateDict_eq_map (toStr : Value → String) (context : List (String × Value)) :
    ∀ entries, resolveTemplateDict toStr context entries =
      entries.map (fun p => (p.1, resolveTemplate toStr context p.2)) := by
  intro entries
  induction entries with
  | nil => rw [resolveTemplateDict]; rfl
  | cons p rest ih =>
    obtain ⟨k, v⟩ := p
    rw [resolveTemplateDict, ih]
    rfl

/-- The list branch of the resolver is an elementwise map. -/
theorem resolveTemplateList_eq_map (toStr : Value → String) (context : List (String × Value)) :
    ∀ items, resolveTemplateList toStr context items =
      items.map (resolveTemplate toStr context) := by
  intro items
  induction items with
  | nil => rw [resolveTemplateList]; rfl
  | cons v rest ih =>
    rw [resolveTemplateList, ih]
    rfl

/-- Claim C8: `_resolve_template_variables` returns non-string scalars
unchanged, recurses entrywise into dicts and elementwise into lists, leaves
dollar-free strings unchanged, and inside strings replaces each `${KEY}`
occurrence by `str(context[KEY])` (the `toStr` rendering of the context
value) when `KEY` is in the context and leaves the literal placeholder text
unchanged when it is not; no error is raised anywhere (all functions are
total), and the resolution is a pure, deterministic function that never
mutates the context. -/
theorem c8_resolve_template (toStr : Value → String) (context : List (String × Value)) :
    (∀ b, resolveTemplate toStr context (.vbool b) = .vbool b) ∧
    (∀ n, resolveTemplate toStr context (.vint n) = .vint n) ∧
    (resolveTemplate toStr context .vnone = .vnone) ∧
    (∀ entries, resolveTemplate toStr context (.vdict entries) =
      .vdict (entries.map (fun p => (p.1, resolveTemplate toStr context p.2)))) ∧
    (∀ items, resolveTemplate toStr context (.vlist items) =
      .vlist (items.map (resolveTemplate toStr context))) ∧
    (∀ s : String, resolveTemplate toStr context (.vstr s) =
      .vstr (String.mk (reSubAux (fun k => (dictGet context k).map toStr) s.data))) ∧
    (∀ s : List Char, '$' ∉ s →
      reSubAux (fun k => (dictGet context k).map toStr) s = s) ∧
    (∀ (a k b : List Char) (v : Value), '$' ∉ a → '\x7d' ∉ k → k ≠ [] →
      dictGet context (String.mk k) = some v →
      reSubAux (fun key => (dictGet context key).map toStr)
          (a ++ '$' :: '\x7b' :: (k ++ '\x7d' :: b)) =
        a ++ (toStr v).data
          ++ reSubAux (fun key => (dictGet context key).map toStr) b) ∧
    (∀ (a k b : List Char), '$' ∉ a → '\x7d' ∉ k → k ≠ [] →
      dictGet context (String.mk k) = none →
      reSubAux (fun key => (dictGet context key).map toStr)
          (a ++ '$' :: '\x7b' :: (k ++ '\x7d' :: b)) =
        a ++ ('$' :: '\x7b' :: (k ++ ['\x7d']))
          ++ reSubAux (fun key => (dictGet context key).map toStr) b) := by
  refine ⟨fun b => by simp [resolveTemplate],
          fun n => by simp [resolveTemplate],
          by simp [resolveTemplate],
          fun entries => by rw [resolveTemplate, resolveTemplateDict_eq_map],
          fun items => by rw [resolveTemplate, resolveTemplateList_eq_map],
          fun s => by rw [resolveTemplate],
          fun s hs => reSub_no_dollar _ s.length s le_rfl hs,
          ?_, ?_⟩
  · intro a k b v ha hk hne hget
    have hpl := reSub_placeholder (fun key => (dictGet context key).map toStr) a k b ha hk hne
    rw [hpl, replacementFor, hget]
    simp
  · intro a k b ha hk hne hget
    have hpl := reSub_placeholder (fun key => (dictGet context key).map toStr) a k b ha hk hne
    rw [hpl, replacementFor, hget]
    simp

/-- Witness for `c8_resolve_template`: resolving `"got ${name}!"` against a
context binding `name` to 42 (both the present-key and structural parts are
exercised at concrete inputs). -/
theorem c8_resolve_template_witness :
    reSubAux (fun key => (dictGet [("name", Value.vint 42)] key).map Value.display)
        ("got ".data ++ '$' :: '\x7b' :: ("name".data ++ '\x7d' :: "!".data)) =
      "got ".data ++ (Value.display (Value.vint 42)).data ++
        reSubAux (fun key => (dictGet [("name", Value.vint 42)] key).map Value.display)
          "!".data :=
  (c8_resolve_template Value.display [("name", Value.vint 42)]).2.2.2.2.2.2.2.1
    "got ".data "name".data "!".data (Value.vint 42)
    (by decide) (by decide) (by decide) rfl

/-! ### Claim C7: the validator acceptance condition -/

/-- Pairwise distinctness of a value list under Python `==`, relative to an
already-seen prefix (formalises "node IDs are unique"). -/
def distinctFrom (seen : List Value) : List Value → Bool
  | [] => true
  | x :: rest => !vmem x seen && distinctFrom (seen ++ [x]) rest

/-- The per-node conditions actually enforced by the first loop of
`validate_dag`: the node is a dict, the three required fields are present
(with any values), the `id` is hashable, and `dependencies` is a list. -/
def nodeShapeOk (node : Value) : Bool :=
  match node with
  | .vdict entries =>
    dictHas entries "id" && dictHas entries "name" && dictHas entries "agent_type" &&
    (dictGetD entries "id" .vnone).hashable &&
    (match dictGetD entries "dependencies" (.vlist []) with
     | .vlist _ => true
     | _ => false)
  | _ => false

/-- The per-dependency conditions enforced by the second loop of
`validate_dag`: hashable, declared, and not the node itself. -/
def depOk (nodeIds : List Value) (nodeId dep : Value) : Bool :=
  dep.hashable && vmem dep nodeIds && !Value.beq dep nodeId

/-- The amended acceptance condition for `validate_dag`, as one flat
conjunction (the "Modelled from the spec" side of the refinement): top level
a dict, `nodes` a non-empty list, every node of the right shape, IDs
pairwise distinct, every dependency hashable/declared/non-self, and Kahn's
algorithm processing every node. -/
def specValid (v : Value) : Bool :=
  match v with
  | .vdict entries =>
    match dictGetD entries "nodes" (.vlist []) with
    | .vlist nodes =>
      !nodes.isEmpty &&
      nodes.all nodeShapeOk &&
      distinctFrom [] (nodes.map rawId) &&
      nodes.all (fun node => (rawDeps node).all (depOk (nodes.map rawId) (rawId node))) &&
      !hasCircularDependency nodes
    | _ => false
  | _ => false

/-- Whether a dict entry is a non-empty string (the claimed — but not
enforced — field condition). -/
def fieldNonEmptyStr (entries : List (String × Value)) (f : String) : Bool :=
  match dictGet entries f with
  | some (.vstr str) => str != ""
  | _ => false

/-- The claim's per-node condition: `id`, `name`, `agent_type` are
non-empty strings. -/
def nodeClaimOk (node : Value) : Bool :=
  match node with
  | .vdict entries =>
    fieldNonEmptyStr entries "id" && fieldNonEmptyStr entries "name" &&
    fieldNonEmptyStr entries "agent_type"
  | _ => false

/-- The acceptance condition exactly as claim C7 states it (non-empty
string fields; no dependencies-must-be-a-list or hashability conditions). -/
def specClaimValid (v : Value) : Bool :=
  match v with
  | .vdict entries =>
    match dictGetD entries "nodes" (.vlist []) with
    | .vlist nodes =>
      !nodes.isEmpty &&
      nodes.all nodeClaimOk &&
      distinctFrom [] (nodes.map rawId) &&
      nodes.all (fun node => (rawDeps node).all
        (fun dep => vmem dep (nodes.map rawId) && !Value.beq dep (rawId node))) &&
      !hasCircularDependency nodes
    | _ => false
  | _ => false

/-- Success of the first loop of `validate_dag` is equivalent to every node
being well-shaped with distinct IDs, and returns the accumulated ID list. -/
theorem checkNodesLoop_ok_iff :
    ∀ (nodes : List Value) (i : Nat) (seen : List Value),
      (∃ ids, checkNodesLoop nodes i seen = .ok ids) ↔
        (nodes.all nodeShapeOk = true ∧ distinctFrom seen (nodes.map rawId) = true) := by
  intro nodes
  induction nodes with
  | nil =>
    intro i seen
    simp [checkNodesLoop, distinctFrom]
  | cons node rest ih =>
    intro i seen
    constructor
    · rintro ⟨ids, hok⟩
      match node with
      | .vnone | .vbool _ | .vint _ | .vstr _ | .vlist _ => simp [checkNodesLoop] at hok
      | .vdict entries =>
        simp only [checkNodesLoop] at hok
        by_cases h1 : dictHas entries "id" <;> simp [h1] at hok
        by_cases h2 : dictHas entries "name" <;> simp [h2] at hok
        by_cases h3 : dictHas entries "agent_type" <;> simp [h3] at hok
        by_cases h4 : (dictGetD entries "id" .vnone).hashable <;> simp [h4] at hok
        by_cases h5 : vmem (dictGetD entries "id" .vnone) seen <;> simp [h5] at hok
        revert hok
        cases h6 : dictGetD entries "dependencies" (.vlist []) with
        | vlist deps =>
          intro hok
          have hrest := (ih (i + 1) (seen ++ [dictGetD entries "id" .vnone])).mp ⟨ids, hok⟩
          simp [nodeShapeOk, distinctFrom, rawId, h1, h2, h3, h4, h5, h6, hrest.1, hrest.2]
        | vnone | vbool _ | vint _ | vstr _ | vdict _ => intro hok; simp at hok
    · rintro ⟨hall, hdist⟩
      match node with
      | .vnone | .vbool _ | .vint _ | .vstr _ | .vlist _ => simp [nodeClaimOk, nodeShapeOk] at hall
      | .vdict entries =>
        simp only [List.all_cons, Bool.and_eq_true, nodeShapeOk] at hall
        obtain ⟨hshape, hall'⟩ := hall
        by_cases h1 : dictHas entries "id" <;> simp [h1] at hshape ⊢
        · by_cases h2 : dictHas entries "name" <;> simp [h2] at hshape ⊢
          · by_cases h3 : dictHas entries "agent_type" <;> simp [h3] at hshape ⊢
            · by_cases h4 : (dictGetD entries "id" .vnone).hashable <;> simp [h4] at hshape ⊢
              · simp only [List.map_cons, distinctFrom, rawId, Bool.and_eq_true] at hdist
                obtain ⟨hnm, hdist'⟩ := hdist
                revert hshape
                cases h6 : dictGetD entries "dependencies" (.vlist []) with
                | vlist deps =>
                  intro _
                  simp only [checkNodesLoop, h1, h2, h3, h4, h6, Bool.not_true,
                    Bool.not_eq_true']
                  have hnm' : vmem (dictGetD entries "id" .vnone) seen = false := by
                    revert hnm
                    cases vmem (dictGetD entries "id" .vnone) seen <;> simp
                  simp [hnm']
                  exact (ih (i + 1) (seen ++ [dictGetD entries "id" .vnone])).mpr ⟨hall', hdist'⟩
                | vnone | vbool _ | vint _ | vstr _ | vdict _ => intro hsh; cases hsh

/-- The ID list returned by a successful first loop is the accumulated
`node_ids` set in insertion order. -/
theorem checkNodesLoop_ok_ids :
    ∀ (nodes : List Value) (i : Nat) (seen ids : List Value),
      checkNodesLoop nodes i seen = .ok ids → ids = seen ++ nodes.map rawId := by
  intro nodes
  induction nodes with
  | nil =>
    intro i seen ids hok
    simp [checkNodesLoop] at hok
    simp [← hok]
  | cons node rest ih =>
    intro i seen ids hok
    match node with
    | .vnone | .vbool _ | .vint _ | .vstr _ | .vlist _ => simp [checkNodesLoop] at hok
    | .vdict entries =>
      simp only [checkNodesLoop] at hok
      by_cases h1 : dictHas entries "id" <;> simp [h1] at hok
      by_cases h2 : dictHas entries "name" <;> simp [h2] at hok
      by_cases h3 : dictHas entries "agent_type" <;> simp [h3] at hok
      by_cases h4 : (dictGetD entries "id" .vnone).hashable <;> simp [h4] at hok
      by_cases h5 : vmem (dictGetD entries "id" .vnone) seen <;> simp [h5] at hok
      revert hok
      cases h6 : dictGetD entries "dependencies" (.vlist []) with
      | vlist deps =>
        intro hok
        have := ih (i + 1) (seen ++ [dictGetD entries "id" .vnone]) ids hok
        simp [this, rawId, h6]
      | vnone | vbool _ | vint _ | vstr _ | vdict _ => intro hok; simp at hok

/-- The inner dependency loop returns no error iff every dependency is
hashable, declared and distinct from the node itself. -/
theorem checkDepList_none_iff :
    ∀ (deps : List Value) (nodeId : Value) (ids : List Value),
      checkDepList nodeId ids deps = none ↔ deps.all (depOk ids nodeId) = true := by
  intro deps
  induction deps with
  | nil => intro nodeId ids; simp [checkDepList]
  | cons dep rest ih =>
    intro nodeId ids
    simp only [checkDepList, List.all_cons, Bool.and_eq_true, depOk]
    by_cases h1 : dep.hashable <;> simp [h1]
    by_cases h2 : vmem dep ids <;> simp [h2]
    by_cases h3 : Value.beq dep nodeId <;> simp [h3]
    simpa using ih nodeId ids

/-- The second loop of `validate_dag` returns no error iff every node's
dependency list passes all the per-dependency checks. -/
theorem checkDepsLoop_none_iff :
    ∀ (nodes ids : List Value),
      checkDepsLoop ids nodes = none ↔
        nodes.all (fun node => (rawDeps node).all (depOk ids (rawId node))) = true := by
  intro nodes
  induction nodes with
  | nil => intro ids; simp [checkDepsLoop]
  | cons node rest ih =>
    intro ids
    simp only [checkDepsLoop, List.all_cons, Bool.and_eq_true]
    cases hcd : checkDepList (rawId node) ids (rawDeps node) with
    | some msg =>
      simp
      intro hall
      have := (checkDepList_none_iff (rawDeps node) (rawId node) ids).mpr (by simpa using hall)
      rw [hcd] at this
      cases this
    | none =>
      have := (checkDepList_none_iff (rawDeps node) (rawId node) ids).mp hcd
      simp [this]
      simpa using ih ids

/-- Claim C7 (amended): `validate_dag` accepts a DAG definition iff the top
level is a dict, `nodes` is a non-empty list, each node is a dict that
contains `id`, `name` and `agent_type` (present with any value — emptiness
and stringness are NOT checked), the node ID is hashable, `dependencies` is
a list of hashable values, node IDs are pairwise distinct, every dependency
refers to a declared node and not to the node itself, and Kahn's algorithm
processes every node (the processed count equals the node count); each
violated check yields its own distinct error message. -/
theorem c7_validate_iff (v : Value) :
    (validateDagDef v).1 = true ↔ specValid v = true := by
  match v with
  | .vnone | .vbool _ | .vint _ | .vstr _ | .vlist _ => simp [validateDagDef, specValid]
  | .vdict entries =>
    unfold validateDagDef specValid
    dsimp only
    cases hn : dictGetD entries "nodes" (.vlist []) with
    | vnone | vbool _ | vint _ | vstr _ | vdict _ => simp
    | vlist nodes =>
      cases hemp : nodes with
      | nil => simp
      | cons n0 ns =>
        subst hemp
        simp only []
        rw [if_neg (by simp)]
        cases hc : checkNodesLoop (n0 :: ns) 0 [] with
        | error msg =>
          simp only [List.isEmpty_cons, Bool.not_false, Bool.true_and]
          constructor
          · intro h
            simp at h
          · intro h
            simp only [Bool.and_eq_true] at h
            obtain ⟨⟨⟨hall, hdist⟩, _⟩, _⟩ := h
            obtain ⟨ids, hok⟩ := (checkNodesLoop_ok_iff (n0 :: ns) 0 []).mpr ⟨hall, hdist⟩
            rw [hc] at hok
            cases hok
        | ok ids =>
          have hids : ids = (n0 :: ns).map rawId := by
            simpa using checkNodesLoop_ok_ids (n0 :: ns) 0 [] ids hc
          obtain ⟨hall, hdist⟩ := (checkNodesLoop_ok_iff (n0 :: ns) 0 []).mp ⟨ids, hc⟩
          cases hdl : checkDepsLoop ids (n0 :: ns) with
          | some msg =>
            simp only [List.isEmpty_cons, Bool.not_false, Bool.true_and]
            constructor
            · intro h
              rw [hdl] at h
              simp at h
            · intro h
              simp only [Bool.and_eq_true] at h
              obtain ⟨⟨_, hdeps⟩, _⟩ := h
              have := (checkDepsLoop_none_iff (n0 :: ns) ((n0 :: ns).map rawId)).mpr hdeps
              rw [← hids, hdl] at this
              cases this
          | none =>
            have hdeps := (checkDepsLoop_none_iff (n0 :: ns) ids).mp hdl
            rw [hids] at hdeps
            by_cases hcirc : hasCircularDependency (n0 :: ns)
            · rw [if_pos hcirc]
              dsimp only
              rw [hdl]
              simp [hcirc]
            · rw [if_neg hcirc]
              dsimp only
              rw [hdl]
              simp only [Bool.not_eq_true] at hcirc
              simp [hall, hcirc]
              exact ⟨by simpa using hdist, by simpa using hdeps⟩

/-- Claim C7 counterexample: a DAG whose single node carries `id`, `name`
and `agent_type` all equal to the empty string is accepted by
`validate_dag` (the code only checks field presence), while the claim's
acceptance condition (non-empty strings) rejects it — so the claimed "if
and only if" is false. -/
theorem c7_empty_fields_counterexample :
    (validateDagDef (.vdict [("nodes", .vlist [.vdict
        [("id", .vstr ""), ("name", .vstr ""), ("agent_type", .vstr "")]])])).1 = true ∧
    specClaimValid (.vdict [("nodes", .vlist [.vdict
        [("id", .vstr ""), ("name", .vstr ""), ("agent_type", .vstr "")]])]) = false :=
  ⟨by decide, by decide⟩

/-! ### Engine helper lemmas -/

/-- Output keys of distinct nodes are distinct. -/
theorem outKey_inj {a b : String} (h : outKey a = outKey b) : a = b := by
  unfold outKey at h
  have hd := congrArg String.data h
  simp only [String.data_append] at hd
  have h1 := List.append_cancel_right hd
  have h2 := List.append_cancel_left h1
  cases a
  cases b
  simp only at h2
  rw [h2]

/-- Metadata keys of distinct nodes are distinct. -/
theorem metaKey_inj {a b : String} (h : metaKey a = metaKey b) : a = b := by
  unfold metaKey at h
  have hd := congrArg String.data h
  simp only [String.data_append] at hd
  have h1 := List.append_cancel_right hd
  have h2 := List.append_cancel_left h1
  cases a
  cases b
  simp only at h2
  rw [h2]

/-- An output key never equals a metadata key (their suffixes end in
different characters). -/
theorem outKey_ne_metaKey (a b : String) : outKey a ≠ metaKey b := by
  intro h
  have hd := congrArg String.data h
  simp only [outKey, metaKey, String.data_append] at hd
  rw [List.append_assoc, List.append_assoc] at hd
  have h1 := List.append_cancel_left hd
  have h2 := congrArg List.reverse h1
  simp only [List.reverse_append] at h2
  rw [show ("_output" : String).data.reverse = ['t', 'u', 'p', 't', 'u', 'o', '_'] from rfl,
      show ("_metadata" : String).data.reverse
        = ['a', 't', 'a', 'd', 'a', 't', 'e', 'm', '_'] from rfl] at h2
  simp at h2

/-- A successful node lookup returns a member with the queried id. -/
theorem nodesFind_eq_some {dag : WorkflowDAG} {nodeId : String} {n : DAGNode}
    (h : nodesFind dag nodeId = some n) : n ∈ dag ∧ n.id = nodeId := by
  unfold nodesFind at h
  have h1 := List.mem_of_find?_eq_some h
  have h2 := List.find?_some h
  simp only [beq_iff_eq] at h2
  exact ⟨h1, h2⟩

/-- Every declared id has a node. -/
theorem nodesFind_of_mem {dag : WorkflowDAG} {nodeId : String}
    (h : nodeId ∈ dag.map DAGNode.id) : ∃ n, nodesFind dag nodeId = some n := by
  cases hf : nodesFind dag nodeId with
  | some n => exact ⟨n, rfl⟩
  | none =>
    obtain ⟨n, hn, hid⟩ := List.mem_map.mp h
    unfold nodesFind at hf
    have := List.find?_eq_none.mp hf n hn
    simp [hid] at this

/-- With distinct ids, lookup of a member's id returns that member. -/
theorem nodesFind_self {dag : WorkflowDAG} (hnodup : (dag.map DAGNode.id).Nodup)
    {n : DAGNode} (hn : n ∈ dag) : nodesFind dag n.id = some n := by
  induction dag with
  | nil => cases hn
  | cons m rest ih =>
    simp only [List.map_cons, List.nodup_cons] at hnodup
    rcases List.mem_cons.mp hn with rfl | hmem
    · simp [nodesFind]
    · have hne : m.id ≠ n.id := by
        intro he
        exact hnodup.1 (he ▸ List.mem_map.mpr ⟨n, hmem, rfl⟩)
      have hb : (m.id == n.id) = false := by simpa using hne
      simp only [nodesFind, List.find?_cons, hb]
      exact ih hnodup.2 hmem

/-- `updateNode` never changes the id sequence. -/
theorem updateNode_map_id (dag : WorkflowDAG) (newN : DAGNode) :
    (updateNode dag newN).map DAGNode.id = dag.map DAGNode.id := by
  induction dag with
  | nil => rfl
  | cons m rest ih =>
    simp only [updateNode, List.map_cons, ih]
    by_cases hm : (m.id == newN.id) = true
    · rw [if_pos hm]
      simp only [beq_iff_eq] at hm
      rw [hm]
    · rw [if_neg hm]

/-- Replacing a node whose id is absent is the identity. -/
theorem updateNode_not_mem {dag : WorkflowDAG} {newN : DAGNode}
    (h : newN.id ∉ dag.map DAGNode.id) : updateNode dag newN = dag := by
  induction dag with
  | nil => rfl
  | cons m rest ih =>
    simp only [List.map_cons, List.mem_cons, not_or] at h
    simp only [updateNode]
    rw [if_neg (by simpa using fun he => h.1 he.symm), ih h.2]

/-- Lookup after `updateNode`, under distinct ids. -/
theorem nodesFind_updateNode {dag : WorkflowDAG} (hnodup : (dag.map DAGNode.id).Nodup)
    {newN : DAGNode} (hmem : newN.id ∈ dag.map DAGNode.id) (nodeId : String) :
    nodesFind (updateNode dag newN) nodeId =
      if nodeId = newN.id then some newN else nodesFind dag nodeId := by
  induction dag with
  | nil => cases hmem
  | cons m rest ih =>
    simp only [List.map_cons, List.nodup_cons] at hnodup
    by_cases hm : m.id = newN.id
    · have hrest : updateNode rest newN = rest :=
        updateNode_not_mem (fun hmm => hnodup.1 (hm ▸ hmm))
      simp only [updateNode, if_pos (show (m.id == newN.id) = true by simpa using hm), hrest]
      by_cases hid : nodeId = newN.id
      · rw [if_pos hid]
        simp [nodesFind, hid]
      · rw [if_neg hid]
        have hb1 : (newN.id == nodeId) = false := by simpa using fun he => hid he.symm
        have hb2 : (m.id == nodeId) = false := by
          simpa using fun he => hid (hm ▸ he.symm)
        simp only [nodesFind, List.find?_cons, hb1, hb2]
    · have hmem' : newN.id ∈ rest.map DAGNode.id := by
        rcases List.mem_cons.mp hmem with he | hr
        · exact absurd he.symm hm
        · exact hr
      simp only [updateNode, if_neg (show ¬ (m.id == newN.id) = true by simpa using hm)]
      by_cases hid : m.id = nodeId
      · have hne : nodeId ≠ newN.id := fun he => hm (hid.trans he)
        rw [if_neg hne]
        simp [nodesFind, hid]
      · have hb : (m.id == nodeId) = false := by simpa using hid
        simp only [nodesFind, List.find?_cons, hb]
        have := ih hnodup.2 hmem'
        simp only [nodesFind] at this
        rw [this]

/-- A successful level computation partitions `remaining`: the flattened
levels are a permutation of it. -/
theorem execOrderAux_perm (dag : WorkflowDAG) :
    ∀ (fuel : Nat) (remaining completed : List String) (levels : List (List String)),
      execOrderAux dag fuel remaining completed = some levels →
      List.Perm levels.flatten remaining := by
  intro fuel
  induction fuel with
  | zero =>
    intro remaining completed levels h
    cases remaining with
    | nil =>
      simp [execOrderAux] at h
      subst h
      exact List.Perm.refl _
    | cons r rs => simp [execOrderAux] at h
  | succ f ih =>
    intro remaining completed levels h
    cases remaining with
    | nil =>
      simp [execOrderAux] at h
      subst h
      exact List.Perm.refl _
    | cons r rs =>
      simp only [execOrderAux] at h
      by_cases hemp : ((r :: rs).filter (canExecuteId dag completed)).isEmpty
      · rw [if_pos hemp] at h
        cases h
      · rw [if_neg hemp] at h
        cases hrec : execOrderAux dag f
            ((r :: rs).filter (fun x => !canExecuteId dag completed x))
            (completed ++ (r :: rs).filter (canExecuteId dag completed)) with
        | none => rw [hrec] at h; cases h
        | some rest =>
          rw [hrec] at h
          simp only [Option.some.injEq] at h
          subst h
          have ihp := ih _ _ rest hrec
          simp only [List.flatten_cons]
          exact (List.Perm.append_left _ ihp).trans
            (List.filter_append_perm (canExecuteId dag completed) (r :: rs))

/-- Every node placed in level `k` could execute against the union of the
levels before it (all its dependencies lie in earlier levels and it was
PENDING when the order was computed). -/
theorem execOrderAux_can (dag : WorkflowDAG) :
    ∀ (fuel : Nat) (remaining completed : List String) (levels : List (List String)),
      execOrderAux dag fuel remaining completed = some levels →
      ∀ (k : Nat) (x : String), x ∈ levels.getD k [] →
        canExecuteId dag (completed ++ (levels.take k).flatten) x = true := by
  intro fuel
  induction fuel with
  | zero =>
    intro remaining completed levels h k x hx
    cases remaining with
    | nil =>
      simp [execOrderAux] at h
      subst h
      simp at hx
    | cons r rs => simp [execOrderAux] at h
  | succ f ih =>
    intro remaining completed levels h k x hx
    cases remaining with
    | nil =>
      simp [execOrderAux] at h
      subst h
      simp at hx
    | cons r rs =>
      simp only [execOrderAux] at h
      by_cases hemp : ((r :: rs).filter (canExecuteId dag completed)).isEmpty
      · rw [if_pos hemp] at h
        cases h
      · rw [if_neg hemp] at h
        cases hrec : execOrderAux dag f
            ((r :: rs).filter (fun y => !canExecuteId dag completed y))
            (completed ++ (r :: rs).filter (canExecuteId dag completed)) with
        | none => rw [hrec] at h; cases h
        | some rest =>
          rw [hrec] at h
          simp only [Option.some.injEq] at h
          subst h
          cases k with
          | zero =>
            simp only [List.getD, List.getElem?_cons_zero, Option.getD_some] at hx
            have := List.of_mem_filter hx
            simpa using this
          | succ k =>
            have hx' : x ∈ rest.getD k [] := by
              simpa [List.getD] using hx
            have := ih _ _ rest hrec k x hx'
            simp only [List.take_succ_cons, List.flatten_cons]
            rw [show completed ++ ((r :: rs).filter (canExecuteId dag completed)
                ++ (rest.take k).flatten)
              = completed ++ (r :: rs).filter (canExecuteId dag completed)
                ++ (rest.take k).flatten from (List.append_assoc _ _ _).symm]
            exact this

/-- When `remaining` is non-empty, a successful computation's first level is
exactly the executable subset of `remaining`. -/
theorem execOrderAux_head (dag : WorkflowDAG) (fuel : Nat)
    (remaining completed : List String) (levels : List (List String))
    (h : execOrderAux dag fuel remaining completed = some levels)
    (hne : remaining ≠ []) :
    ∃ rest, levels = (remaining.filter (canExecuteId dag completed)) :: rest := by
  cases remaining with
  | nil => exact absurd rfl hne
  | cons r rs =>
    cases fuel with
    | zero => simp [execOrderAux] at h
    | succ f =>
      simp only [execOrderAux] at h
      by_cases hemp : ((r :: rs).filter (canExecuteId dag completed)).isEmpty
      · rw [if_pos hemp] at h
        cases h
      · rw [if_neg hemp] at h
        cases hrec : execOrderAux dag f
            ((r :: rs).filter (fun y => !canExecuteId dag completed y))
            (completed ++ (r :: rs).filter (canExecuteId dag completed)) with
        | none => rw [hrec] at h; cases h
        | some rest =>
          rw [hrec] at h
          simp only [Option.some.injEq] at h
          exact ⟨rest, h.symm⟩

/-- A successful `get_execution_order` partitions the node-id list. -/
theorem getExecutionOrder_perm {dag : WorkflowDAG} {levels : List (List String)}
    (h : getExecutionOrder dag = some levels) :
    List.Perm levels.flatten (dag.map DAGNode.id) := by
  unfold getExecutionOrder at h
  by_cases hv : dagValidate dag
  · rw [if_pos hv] at h
    exact execOrderAux_perm dag _ _ _ _ h
  · rw [if_neg hv] at h
    cases h

/-- Every node of level `k` of a successful `get_execution_order` could
execute given exactly the earlier levels. -/
theorem getExecutionOrder_can {dag : WorkflowDAG} {levels : List (List String)}
    (h : getExecutionOrder dag = some levels) :
    ∀ (k : Nat) (x : String), x ∈ levels.getD k [] →
      canExecuteId dag ((levels.take k).flatten) x = true := by
  unfold getExecutionOrder at h
  by_cases hv : dagValidate dag
  · rw [if_pos hv] at h
    intro k x hx
    have := execOrderAux_can dag _ _ _ _ h k x hx
    simpa using this
  · rw [if_neg hv] at h
    cases h

/-- Whether the node with the given id currently has status COMPLETED. -/
def isCompletedIn (dag : WorkflowDAG) (nodeId : String) : Bool :=
  match nodesFind dag nodeId with
  | some n => n.status == .completed
  | none => false

/-- The invariant maintained by `_execute_dag` over the processed-id list
`P`: ids are stable; unprocessed nodes are untouched; processed nodes are
terminal; `failed_nodes` collects exactly the FAILED processed nodes and
`completed_nodes` the COMPLETED/SKIPPED ones; and the context-write keys
are exactly one output/metadata pair per COMPLETED processed node, in
processing order. -/
def EngineInv (dag0 : WorkflowDAG) (P : List String) (st : RunState) : Prop :=
  st.dag.map DAGNode.id = dag0.map DAGNode.id ∧
  (∀ nodeId, nodeId ∉ P → nodesFind st.dag nodeId = nodesFind dag0 nodeId) ∧
  (∀ nodeId ∈ P, ∃ n, nodesFind st.dag nodeId = some n ∧ n.status ≠ .pending) ∧
  (∀ nodeId, nodeId ∈ st.failed ↔ nodeId ∈ P ∧
     (∃ n, nodesFind st.dag nodeId = some n ∧ n.status = .failed)) ∧
  (∀ nodeId, nodeId ∈ st.completed ↔ nodeId ∈ P ∧
     (∃ n, nodesFind st.dag nodeId = some n ∧
       (n.status = .completed ∨ n.status = .skipped))) ∧
  st.writes.map Prod.fst =
    (P.filter (isCompletedIn st.dag)).bind (fun nodeId => [outKey nodeId, metaKey nodeId]) ∧
  (∀ nodeId ∈ P, ∀ n, nodesFind st.dag nodeId = some n →
    ∃ n0, nodesFind dag0 nodeId = some n0 ∧ n.conditions = n0.conditions)

/-- The invariant holds initially. -/
theorem engineInv_init (dag0 : WorkflowDAG) (ctx0 : List (String × Value)) :
    EngineInv dag0 [] { dag := dag0, ctx := ctx0, completed := [], failed := [], writes := [] } := by
  refine ⟨rfl, fun _ _ => rfl, fun _ h => absurd h (List.not_mem_nil _), ?_, ?_, rfl,
    fun _ h => absurd h (List.not_mem_nil _)⟩
  · intro nodeId
    simp
  · intro nodeId
    simp

/-- Processing one fresh pending node preserves the invariant, extending
the processed list by that node. -/
theorem engineInv_step (registry : List String) (behav : String → Nat → AgentOutcome)
    (dag0 : WorkflowDAG)
    (hnodup0 : (dag0.map DAGNode.id).Nodup)
    (hpend0 : ∀ n ∈ dag0, n.status = .pending)
    (P : List String) (st : RunState) (hinv : EngineInv dag0 P st)
    (nodeId : String) (hmem : nodeId ∈ dag0.map DAGNode.id) (hfresh : nodeId ∉ P) :
    EngineInv dag0 (P ++ [nodeId]) (runNodeStep registry behav st nodeId) := by
  obtain ⟨hids, hun, hterm, hfail, hcomp, hwr, hcond⟩ := hinv
  have hnodup : (st.dag.map DAGNode.id).Nodup := by rw [hids]; exact hnodup0
  obtain ⟨n0, hn0⟩ := nodesFind_of_mem hmem
  obtain ⟨hn0mem, hn0id⟩ := nodesFind_eq_some hn0
  have hfind0 : nodesFind st.dag nodeId = some n0 := by rw [hun nodeId hfresh, hn0]
  have hn0p : n0.status = .pending := hpend0 n0 hn0mem
  unfold runNodeStep
  rw [hfind0]
  dsimp only
  rw [if_pos (by simp [hn0p])]
  unfold EngineInv
  dsimp only
  set r := executeNode registry (behav nodeId) n0 st.ctx 0 with hrdef
  have hshape : ExecShape n0 st.ctx r :=
    exAux_shape registry (behav nodeId) st.ctx (n0.maxRetries - n0.retryCount) n0 0
  have hpres := exAux_preserves registry (behav nodeId) st.ctx
    (n0.maxRetries - n0.retryCount) n0 0
  have hrid : r.node.id = nodeId := hpres.1.trans hn0id
  have hmem' : r.node.id ∈ st.dag.map DAGNode.id := by rw [hrid, hids]; exact hmem
  have hlook : ∀ q, nodesFind (updateNode st.dag r.node) q =
      if q = nodeId then some r.node else nodesFind st.dag q := by
    intro q
    rw [nodesFind_updateNode hnodup hmem' q, hrid]
  refine ⟨?_, ?_, ?_, ?_, ?_, ?_, ?_⟩
  · rw [updateNode_map_id]
    exact hids
  · intro q hq
    simp only [List.mem_append, List.mem_singleton, not_or] at hq
    rw [hlook q, if_neg hq.2]
    exact hun q hq.1
  · intro q hq
    rcases List.mem_append.mp hq with hq | hq
    · have hqne : q ≠ nodeId := fun he => hfresh (he ▸ hq)
      obtain ⟨n, hn, hnst⟩ := hterm q hq
      exact ⟨n, by rw [hlook q, if_neg hqne]; exact hn, hnst⟩
    · simp only [List.mem_singleton] at hq
      subst hq
      refine ⟨r.node, by rw [hlook q, if_pos rfl], ?_⟩
      rcases hshape with ⟨_, hstat, _, _⟩ | ⟨_, hstat, _⟩ | ⟨_, hstat, _, _⟩ <;>
        simp [hstat]
  · intro q
    constructor
    · intro hq
      by_cases hret : r.retBool = true
      · rw [if_pos hret] at hq
        have hthis := (hfail q).mp hq
        have hqne : q ≠ nodeId := fun he => hfresh (he ▸ hthis.1)
        obtain ⟨hp, n, hn, hnst⟩ := hthis
        exact ⟨List.mem_append_left _ hp, n, by rw [hlook q, if_neg hqne]; exact hn, hnst⟩
      · rw [if_neg hret] at hq
        rcases List.mem_append.mp hq with hq | hq
        · have hthis := (hfail q).mp hq
          have hqne : q ≠ nodeId := fun he => hfresh (he ▸ hthis.1)
          obtain ⟨hp, n, hn, hnst⟩ := hthis
          exact ⟨List.mem_append_left _ hp, n, by rw [hlook q, if_neg hqne]; exact hn, hnst⟩
        · simp only [List.mem_singleton] at hq
          subst hq
          refine ⟨List.mem_append_right _ (List.mem_singleton_self _), r.node,
            by rw [hlook q, if_pos rfl], ?_⟩
          rcases hshape with ⟨hrb, _, _, _⟩ | ⟨hrb, _, _⟩ | ⟨_, hstat, _, _⟩
          · exact absurd hrb hret
          · exact absurd hrb hret
          · exact hstat
    · rintro ⟨hp, n, hn, hnst⟩
      by_cases hqne : q = nodeId
      · subst hqne
        rw [hlook q, if_pos rfl] at hn
        cases hn
        rcases hshape with ⟨hrb, hstat, _, _⟩ | ⟨hrb, hstat, _⟩ | ⟨hrb, hstat, _, _⟩
        · rw [hstat] at hnst; cases hnst
        · rw [hstat] at hnst; cases hnst
        · rw [if_neg (by rw [hrb]; exact Bool.false_ne_true)]
          exact List.mem_append_right _ (List.mem_singleton_self _)
      · rw [hlook q, if_neg hqne] at hn
        have hqP : q ∈ P := by
          rcases List.mem_append.mp hp with h | h
          · exact h
          · simp only [List.mem_singleton] at h
            exact absurd h hqne
        have hmemf : q ∈ st.failed := (hfail q).mpr ⟨hqP, n, hn, hnst⟩
        by_cases hret : r.retBool = true
        · rw [if_pos hret]
          exact hmemf
        · rw [if_neg hret]
          exact List.mem_append_left _ hmemf
  · intro q
    constructor
    · intro hq
      by_cases hret : r.retBool = true
      · rw [if_pos hret] at hq
        rcases List.mem_append.mp hq with hq | hq
        · have hthis := (hcomp q).mp hq
          have hqne : q ≠ nodeId := fun he => hfresh (he ▸ hthis.1)
          obtain ⟨hp, n, hn, hnst⟩ := hthis
          exact ⟨List.mem_append_left _ hp, n, by rw [hlook q, if_neg hqne]; exact hn, hnst⟩
        · simp only [List.mem_singleton] at hq
          subst hq
          refine ⟨List.mem_append_right _ (List.mem_singleton_self _), r.node,
            by rw [hlook q, if_pos rfl], ?_⟩
          rcases hshape with ⟨_, hstat, _, _⟩ | ⟨_, hstat, _⟩ | ⟨hrb, _, _, _⟩
          · exact Or.inr hstat
          · exact Or.inl hstat
          · exact absurd hret (by rw [hrb]; exact Bool.false_ne_true)
      · rw [if_neg hret] at hq
        have hthis := (hcomp q).mp hq
        have hqne : q ≠ nodeId := fun he => hfresh (he ▸ hthis.1)
        obtain ⟨hp, n, hn, hnst⟩ := hthis
        exact ⟨List.mem_append_left _ hp, n, by rw [hlook q, if_neg hqne]; exact hn, hnst⟩
    · rintro ⟨hp, n, hn, hnst⟩
      by_cases hqne : q = nodeId
      · subst hqne
        rw [hlook q, if_pos rfl] at hn
        cases hn
        rcases hshape with ⟨hrb, hstat, _, _⟩ | ⟨hrb, hstat, _⟩ | ⟨hrb, hstat, _, _⟩
        · rw [if_pos hrb]
          exact List.mem_append_right _ (List.mem_singleton_self _)
        · rw [if_pos hrb]
          exact List.mem_append_right _ (List.mem_singleton_self _)
        · rw [hstat] at hnst
          rcases hnst with h | h <;> cases h
      · rw [hlook q, if_neg hqne] at hn
        have hqP : q ∈ P := by
          rcases List.mem_append.mp hp with h | h
          · exact h
          · simp only [List.mem_singleton] at h
            exact absurd h hqne
        have hmemc : q ∈ st.completed := (hcomp q).mpr ⟨hqP, n, hn, hnst⟩
        by_cases hret : r.retBool = true
        · rw [if_pos hret]
          exact List.mem_append_left _ hmemc
        · rw [if_neg hret]
          exact hmemc
  · have hfiltP : P.filter (isCompletedIn (updateNode st.dag r.node)) =
        P.filter (isCompletedIn st.dag) := by
      apply List.filter_congr
      intro q hq
      have hqne : q ≠ nodeId := fun he => hfresh (he ▸ hq)
      unfold isCompletedIn
      rw [hlook q, if_neg hqne]
    simp only [List.map_append, List.filter_append, List.append_bind, hfiltP]
    rw [hwr]
    congr 1
    have hciddag : isCompletedIn (updateNode st.dag r.node) nodeId =
        (r.node.status == .completed) := by
      unfold isCompletedIn
      rw [hlook nodeId, if_pos rfl]
    rcases hshape with ⟨_, hstat, hw, _⟩ | ⟨_, hstat, d, m, hw, _⟩ | ⟨_, hstat, hw, _⟩
    · rw [hw]
      simp [List.filter_singleton, hciddag, hstat]
    · rw [hw]
      simp only [List.filter_singleton, hciddag, hstat]
      simp [hn0id]
    · rw [hw]
      simp [List.filter_singleton, hciddag, hstat]
  · intro q hq n hn
    rcases List.mem_append.mp hq with hq | hq
    · have hqne : q ≠ nodeId := fun he => hfresh (he ▸ hq)
      rw [hlook q, if_neg hqne] at hn
      exact hcond q hq n hn
    · simp only [List.mem_singleton] at hq
      subst hq
      rw [hlook q, if_pos rfl] at hn
      cases hn
      exact ⟨n0, hn0, hpres.2.1⟩

/-- Processing a whole level of fresh pending nodes preserves the
invariant. -/
theorem engineInv_level (registry : List String) (behav : String → Nat → AgentOutcome)
    (dag0 : WorkflowDAG)
    (hnodup0 : (dag0.map DAGNode.id).Nodup)
    (hpend0 : ∀ n ∈ dag0, n.status = .pending) :
    ∀ (level : List String) (P : List String) (st : RunState),
      EngineInv dag0 P st →
      (∀ q ∈ level, q ∈ dag0.map DAGNode.id) →
      (∀ q ∈ level, q ∉ P) →
      level.Nodup →
      EngineInv dag0 (P ++ level) (runLevel registry behav st level) := by
  intro level
  induction level with
  | nil =>
    intro P st hinv _ _ _
    simpa [runLevel] using hinv
  | cons q qs ih =>
    intro P st hinv hsub hdisj hnd
    have hstep := engineInv_step registry behav dag0 hnodup0 hpend0 P st hinv q
      (hsub q (List.mem_cons_self _ _)) (hdisj q (List.mem_cons_self _ _))
    simp only [List.nodup_cons] at hnd
    have hrec := ih (P ++ [q]) (runNodeStep registry behav st q) hstep
      (fun x hx => hsub x (List.mem_cons_of_mem _ hx))
      (fun x hx => by
        simp only [List.mem_append, List.mem_singleton, not_or]
        exact ⟨hdisj x (List.mem_cons_of_mem _ hx), fun he => hnd.1 (he ▸ hx)⟩)
      hnd.2
    have hassoc : P ++ [q] ++ qs = P ++ q :: qs := by simp
    rw [hassoc] at hrec
    simpa [runLevel] using hrec

/-- Running all levels from the initial state establishes the invariant for
the flattened level list. -/
theorem engineInv_run (registry : List String) (behav : String → Nat → AgentOutcome)
    (dag0 : WorkflowDAG)
    (hnodup0 : (dag0.map DAGNode.id).Nodup)
    (hpend0 : ∀ n ∈ dag0, n.status = .pending) :
    ∀ (levels : List (List String)) (P : List String) (st : RunState),
      EngineInv dag0 P st →
      (∀ q ∈ levels.flatten, q ∈ dag0.map DAGNode.id) →
      (∀ q ∈ levels.flatten, q ∉ P) →
      levels.flatten.Nodup →
      EngineInv dag0 (P ++ levels.flatten)
        (levels.foldl (runLevel registry behav) st) := by
  intro levels
  induction levels with
  | nil =>
    intro P st hinv _ _ _
    simpa using hinv
  | cons level rest ih =>
    intro P st hinv hsub hdisj hnd
    simp only [List.flatten_cons] at hsub hdisj hnd ⊢
    have hndl := hnd.of_append_left
    have hndr := hnd.of_append_right
    have hdisj2 := List.disjoint_of_nodup_append hnd
    have hlev := engineInv_level registry behav dag0 hnodup0 hpend0 level P st hinv
      (fun q hq => hsub q (List.mem_append_left _ hq))
      (fun q hq => hdisj q (List.mem_append_left _ hq))
      hndl
    have hrec := ih (P ++ level) (runLevel registry behav st level) hlev
      (fun q hq => hsub q (List.mem_append_right _ hq))
      (fun q hq => by
        simp only [List.mem_append, not_or]
        exact ⟨hdisj q (List.mem_append_right _ hq), fun hql => hdisj2 hql hq⟩)
      hndr
    simpa [List.append_assoc] using hrec

/-- Master lemma: a successful `_execute_dag` run yields a level order for
the DAG and a final state satisfying the engine invariant over all node
ids, with the result's success bit computed by the critical-failure
predicate. -/
theorem executeDag_inv {registry : List String} {behav : String → Nat → AgentOutcome}
    {dag : WorkflowDAG} {ctx0 : List (String × Value)} {res : DagRunResult}
    (hnodup : (dag.map DAGNode.id).Nodup)
    (hpend : ∀ n ∈ dag, n.status = .pending)
    (hrun : executeDag registry behav dag ctx0 = some res) :
    ∃ levels, getExecutionOrder dag = some levels ∧
      List.Perm levels.flatten (dag.map DAGNode.id) ∧
      EngineInv dag levels.flatten
        { dag := res.dag, ctx := res.ctx, completed := res.completed,
          failed := res.failed, writes := res.writes } ∧
      res.success = (res.failed.isEmpty ||
        !res.failed.any (fun q => res.failed.contains q && !optionalFlag res.dag q)) := by
  unfold executeDag at hrun
  cases hord : getExecutionOrder dag with
  | none => rw [hord] at hrun; cases hrun
  | some levels =>
    rw [hord] at hrun
    simp only [Option.some.injEq] at hrun
    have hperm := getExecutionOrder_perm hord
    have hflatnd : levels.flatten.Nodup := hperm.nodup_iff.mpr hnodup
    have hinv := engineInv_run registry behav dag hnodup hpend levels []
      { dag := dag, ctx := ctx0, completed := [], failed := [], writes := [] }
      (engineInv_init dag ctx0)
      (fun q hq => hperm.mem_iff.mp hq)
      (fun _ _ => List.not_mem_nil _)
      hflatnd
    simp only [List.nil_append] at hinv
    refine ⟨levels, rfl, hperm, ?_, ?_⟩
    · rw [← hrun]
      exact hinv
    · rw [← hrun]

/-- With a boolean (or absent) `optional` entry, truthiness of
`conditions.get("optional", False)` coincides with equality to `True`. -/
def optionalBool (n : DAGNode) : Bool :=
  match dictGet n.conditions "optional" with
  | none => true
  | some (.vbool _) => true
  | some _ => false

/-- Truthiness versus equality for boolean `optional` entries. -/
theorem truthy_optional {n : DAGNode} (h : optionalBool n = true) :
    ((dictGetD n.conditions "optional" (.vbool false)).truthy = true ↔
      dictGetD n.conditions "optional" (.vbool false) = .vbool true) := by
  unfold optionalBool at h
  unfold dictGetD
  cases hg : dictGet n.conditions "optional" with
  | none => simp [Value.truthy]
  | some v =>
    rw [hg] at h
    cases v with
    | vbool b => cases b <;> simp [Value.truthy]
    | vnone | vint _ | vstr _ | vlist _ | vdict _ => cases h

/-- The per-node output/metadata key blocks of distinct ids form a
duplicate-free list. -/
theorem pairs_nodup : ∀ (l : List String), l.Nodup →
    (l.bind (fun nodeId => [outKey nodeId, metaKey nodeId])).Nodup := by
  intro l
  induction l with
  | nil => intro _; simp
  | cons a rest ih =>
    intro h
    simp only [List.nodup_cons] at h
    simp only [List.cons_bind]
    refine List.Nodup.append ?_ (ih h.2) ?_
    · simp [outKey_ne_metaKey]
    · intro k hk1 hk2
      obtain ⟨b, hb, hkb⟩ := List.mem_bind.mp hk2
      simp only [List.mem_cons, List.mem_singleton, List.not_mem_nil] at hk1 hkb
      rcases hk1 with rfl | hk1
      · rcases hkb with he | he
        · exact h.1 (outKey_inj he ▸ hb)
        · rcases he with he | he
          · exact outKey_ne_metaKey a b he
          · cases he
      · rcases hk1 with rfl | hk1
        · rcases hkb with he | he
          · exact outKey_ne_metaKey b a he.symm
          · rcases he with he | he
            · exact h.1 (metaKey_inj he ▸ hb)
            · cases he
        · cases hk1

/-! ### Claims C1, C3, C9 -/

/-- Claim C1 (code bug witness): in a two-node DAG where B depends on A,
A's agent always fails (A ends FAILED) and B's agent succeeds, the engine
still launches B — B ends COMPLETED, not PENDING: `_execute_dag` launches
every PENDING node of each level without checking that its dependencies
completed (`completed_nodes` is collected but never consulted). -/
theorem c1_downstream_executed :
    ((executeDag defaultRegistry
        (fun nodeId _ => if nodeId == "A" then .fail (some "boom") else .ok (.vint 1) .vnone)
        [{ id := "A", name := "A", agentType := "web_search", maxRetries := 0 },
         { id := "B", name := "B", agentType := "text_writing", dependencies := ["A"] }]
        []).map
      (fun res => (res.dag.map (fun (n : DAGNode) => (n.id, n.status)),
                   res.success, res.failed, res.completed))) =
      some ([("A", NodeStatus.failed), ("B", NodeStatus.completed)],
            false, ["A"], ["B"]) := by
  decide

/-- Claim C3: a run of `_execute_dag` reports success exactly when either
no node ended FAILED or every FAILED node carries `conditions.optional ==
True` (assuming, per the canonical DAG format, that `optional` entries are
booleans when present). -/
theorem c3_workflow_success_iff (registry : List String)
    (behav : String → Nat → AgentOutcome) (dag : WorkflowDAG)
    (ctx0 : List (String × Value)) (res : DagRunResult)
    (hnodup : (dag.map DAGNode.id).Nodup)
    (hpend : ∀ n ∈ dag, n.status = .pending)
    (hopt : ∀ n ∈ dag, optionalBool n = true)
    (hrun : executeDag registry behav dag ctx0 = some res) :
    res.success = true ↔
      ∀ n ∈ res.dag, n.status = .failed →
        dictGetD n.conditions "optional" (.vbool false) = .vbool true := by
  obtain ⟨levels, hord, hperm, hinv, hsucc⟩ := executeDag_inv hnodup hpend hrun
  unfold EngineInv at hinv
  dsimp only at hinv
  obtain ⟨hids, hun, hterm, hfail, hcomp, hwr, hcond⟩ := hinv
  have hnodup' : (res.dag.map DAGNode.id).Nodup := by rw [hids]; exact hnodup
  have hkey : res.success = true ↔ ∀ q ∈ res.failed, optionalFlag res.dag q = true := by
    rw [hsucc]
    constructor
    · intro h q hq
      rcases Bool.or_eq_true_iff.mp h with h1 | h2
      · rw [List.isEmpty_iff.mp h1] at hq
        cases hq
      · have h3 : res.failed.any
            (fun p => res.failed.contains p && !optionalFlag res.dag p) = false := by
          revert h2
          cases res.failed.any (fun p => res.failed.contains p && !optionalFlag res.dag p) <;>
            simp
        have h4 : ¬ ((res.failed.contains q && !optionalFlag res.dag q) = true) := by
          intro hcontra
          have : res.failed.any
              (fun p => res.failed.contains p && !optionalFlag res.dag p) = true :=
            List.any_eq_true.mpr ⟨q, hq, hcontra⟩
          rw [h3] at this
          cases this
        have hcont : res.failed.contains q = true := by simpa using hq
        revert h4
        cases hopt2 : optionalFlag res.dag q <;> simp [hcont, hq]
    · intro hall
      apply Bool.or_eq_true_iff.mpr
      right
      have h3 : res.failed.any
          (fun p => res.failed.contains p && !optionalFlag res.dag p) = false := by
        rw [← Bool.not_eq_true, List.any_eq_true]
        rintro ⟨q, hq, hcontra⟩
        rw [hall q hq] at hcontra
        simp at hcontra
      rw [h3]
      rfl
  rw [hkey]
  constructor
  · intro hsucc2 n hn hnf
    have hfindn : nodesFind res.dag n.id = some n := nodesFind_self hnodup' hn
    have hidP : n.id ∈ levels.flatten :=
      hperm.mem_iff.mpr (by rw [← hids]; exact List.mem_map.mpr ⟨n, hn, rfl⟩)
    have hidf : n.id ∈ res.failed := (hfail n.id).mpr ⟨hidP, n, hfindn, hnf⟩
    have hoptf := hsucc2 n.id hidf
    unfold optionalFlag at hoptf
    rw [hfindn] at hoptf
    have hob : optionalBool n = true := by
      obtain ⟨n0, hn0, hcs⟩ := hcond n.id hidP n hfindn
      have hobn0 := hopt n0 (nodesFind_eq_some hn0).1
      unfold optionalBool at hobn0 ⊢
      rw [hcs]
      exact hobn0
    exact (truthy_optional hob).mp hoptf
  · intro hall q hq
    obtain ⟨hqP, n, hfindn, hnf⟩ := (hfail q).mp hq
    have hn := (nodesFind_eq_some hfindn).1
    have heq := hall n hn hnf
    unfold optionalFlag
    rw [hfindn]
    have hob : optionalBool n = true := by
      obtain ⟨n0, hn0, hcs⟩ := hcond q hqP n hfindn
      have hobn0 := hopt n0 (nodesFind_eq_some hn0).1
      unfold optionalBool at hobn0 ⊢
      rw [hcs]
      exact hobn0
    exact (truthy_optional hob).mpr heq

/-- The concrete run used to witness claims C3 and C9. -/
def c3ResW : DagRunResult :=
  (executeDag defaultRegistry (fun _ _ => .fail (some "boom"))
    [{ id := "A", name := "A", agentType := "web_search", maxRetries := 0,
       conditions := [("optional", .vbool true)] }] []).getD
    { dag := [], ctx := [], completed := [], failed := [], writes := [], success := false }

/-- Witness for `c3_workflow_success_iff`: a single always-failing optional
node; the workflow still reports success. -/
theorem c3_workflow_success_iff_witness :
    c3ResW.success = true ↔
      ∀ n ∈ c3ResW.dag, n.status = .failed →
        dictGetD n.conditions "optional" (.vbool false) = .vbool true :=
  c3_workflow_success_iff defaultRegistry (fun _ _ => .fail (some "boom"))
    [{ id := "A", name := "A", agentType := "web_search", maxRetries := 0,
       conditions := [("optional", .vbool true)] }] [] c3ResW
    (by decide) (by decide) (by decide) rfl

/-- Claim C9: in a successful run, the context-write keys are pairwise
distinct (no key the executor wrote is ever overwritten), and the
`node_<id>_output` / `node_<id>_metadata` keys are written exactly for the
nodes whose final status is COMPLETED — not for skipped or failed nodes. -/
theorem c9_context_write_once (registry : List String)
    (behav : String → Nat → AgentOutcome) (dag : WorkflowDAG)
    (ctx0 : List (String × Value)) (res : DagRunResult)
    (hnodup : (dag.map DAGNode.id).Nodup)
    (hpend : ∀ n ∈ dag, n.status = .pending)
    (hrun : executeDag registry behav dag ctx0 = some res) :
    (res.writes.map Prod.fst).Nodup ∧
    (∀ nodeId, outKey nodeId ∈ res.writes.map Prod.fst ↔
       ∃ n, nodesFind res.dag nodeId = some n ∧ n.status = .completed) ∧
    (∀ nodeId, metaKey nodeId ∈ res.writes.map Prod.fst ↔
       ∃ n, nodesFind res.dag nodeId = some n ∧ n.status = .completed) := by
  obtain ⟨levels, hord, hperm, hinv, hsucc⟩ := executeDag_inv hnodup hpend hrun
  unfold EngineInv at hinv
  dsimp only at hinv
  obtain ⟨hids, hun, hterm, hfail, hcomp, hwr, hcond⟩ := hinv
  have hflatnd : levels.flatten.Nodup := hperm.nodup_iff.mpr hnodup
  have hCiff : ∀ q, q ∈ levels.flatten.filter (isCompletedIn res.dag) ↔
      ∃ n, nodesFind res.dag q = some n ∧ n.status = .completed := by
    intro q
    rw [List.mem_filter]
    constructor
    · rintro ⟨hqP, hqc⟩
      unfold isCompletedIn at hqc
      cases hfind : nodesFind res.dag q with
      | none => rw [hfind] at hqc; cases hqc
      | some n =>
        rw [hfind] at hqc
        exact ⟨n, rfl, by simpa using hqc⟩
    · rintro ⟨n, hfind, hst⟩
      refine ⟨?_, ?_⟩
      · have hn := (nodesFind_eq_some hfind).1
        have hqid := (nodesFind_eq_some hfind).2
        apply hperm.mem_iff.mpr
        rw [← hids, ← hqid]
        exact List.mem_map.mpr ⟨n, hn, rfl⟩
      · unfold isCompletedIn
        rw [hfind]
        simp [hst]
  refine ⟨?_, ?_, ?_⟩
  · rw [hwr]
    exact pairs_nodup _ (List.Nodup.filter _ hflatnd)
  · intro q
    rw [hwr]
    constructor
    · intro hq
      obtain ⟨b, hb, hkb⟩ := List.mem_bind.mp hq
      simp only [List.mem_cons, List.mem_singleton, List.not_mem_nil, or_false] at hkb
      rcases hkb with he | he
      · rw [outKey_inj he]
        exact (hCiff b).mp hb
      · exact absurd he (outKey_ne_metaKey q b)
    · intro hex
      exact List.mem_bind.mpr ⟨q, (hCiff q).mpr hex, by simp⟩
  · intro q
    rw [hwr]
    constructor
    · intro hq
      obtain ⟨b, hb, hkb⟩ := List.mem_bind.mp hq
      simp only [List.mem_cons, List.mem_singleton, List.not_mem_nil, or_false] at hkb
      rcases hkb with he | he
      · exact absurd he.symm (outKey_ne_metaKey b q)
      · rw [metaKey_inj he]
        exact (hCiff b).mp hb
    · intro hex
      exact List.mem_bind.mpr ⟨q, (hCiff q).mpr hex, by simp⟩

/-- The concrete run used to witness claim C9: one succeeding node. -/
def c9ResW : DagRunResult :=
  (executeDag defaultRegistry (fun _ _ => .ok (.vint 7) .vnone)
    [{ id := "A", name := "A", agentType := "web_search" }] []).getD
    { dag := [], ctx := [], completed := [], failed := [], writes := [], success := false }

/-- Witness for `c9_context_write_once` at a concrete one-node run. -/
theorem c9_context_write_once_witness :
    (c9ResW.writes.map Prod.fst).Nodup ∧
    (outKey "A" ∈ c9ResW.writes.map Prod.fst ↔
      ∃ n, nodesFind c9ResW.dag "A" = some n ∧ n.status = .completed) ∧
    (metaKey "B" ∈ c9ResW.writes.map Prod.fst ↔
      ∃ n, nodesFind c9ResW.dag "B" = some n ∧ n.status = .completed) := by
  have h := c9_context_write_once defaultRegistry (fun _ _ => .ok (.vint 7) .vnone)
    [{ id := "A", name := "A", agentType := "web_search" }] [] c9ResW
    (by decide) (by decide) rfl
  exact ⟨h.1, h.2.1 "A", h.2.2 "B"⟩

/-! ### Claim C6 -/

/-- A nonempty list has an element of minimal rank. -/
theorem exists_min_rank (rank : String → Nat) :
    ∀ (l : List String), l ≠ [] → ∃ m ∈ l, ∀ y ∈ l, rank m ≤ rank y := by
  intro l
  induction l with
  | nil => intro h; exact absurd rfl h
  | cons a as ih =>
    intro _
    by_cases has : as = []
    · subst has
      refine ⟨a, List.mem_singleton_self a, fun y hy => ?_⟩
      rw [List.mem_singleton.mp hy]
    · obtain ⟨m, hm, hmin⟩ := ih has
      by_cases hcmp : rank a ≤ rank m
      · refine ⟨a, List.mem_cons_self a as, fun y hy => ?_⟩
        rcases List.mem_cons.mp hy with rfl | hy2
        · exact le_refl _
        · exact le_trans hcmp (hmin y hy2)
      · refine ⟨m, List.mem_cons_of_mem a hm, fun y hy => ?_⟩
        rcases List.mem_cons.mp hy with rfl | hy2
        · exact le_of_lt (Nat.lt_of_not_le hcmp)
        · exact hmin y hy2

/-- Totality of the level-building loop on acyclic inputs: if every
remaining id names a PENDING node whose dependencies have strictly smaller
rank and lie in `completed` or `remaining`, the loop never hits the
"Unable to find executable nodes" error (a minimal-rank remaining node is
always executable), and `remaining.length` fuel suffices. -/
theorem execOrderAux_total (dag : WorkflowDAG) (rank : String → Nat) :
    ∀ (fuel : Nat) (remaining completed : List String),
      remaining.length ≤ fuel →
      (∀ x ∈ remaining, ∃ n, nodesFind dag x = some n ∧ n.status = .pending ∧
        ∀ d ∈ n.dependencies, rank d < rank x ∧ (d ∈ completed ∨ d ∈ remaining)) →
      ∃ levels, execOrderAux dag fuel remaining completed = some levels := by
  intro fuel
  induction fuel with
  | zero =>
    intro remaining completed hlen _
    cases remaining with
    | nil => exact ⟨[], rfl⟩
    | cons r rs => simp at hlen
  | succ f ih =>
    intro remaining completed hlen hinv
    cases remaining with
    | nil => exact ⟨[], rfl⟩
    | cons r rs =>
      obtain ⟨m, hm, hmin⟩ := exists_min_rank rank (r :: rs) (by simp)
      obtain ⟨nm, hfm, hpm, hdm⟩ := hinv m hm
      have hcanm : canExecuteId dag completed m = true := by
        unfold canExecuteId
        rw [hfm]
        dsimp only
        unfold DAGNode.canExecute
        rw [hpm]
        simp only [beq_self_eq_true, Bool.true_and]
        rw [List.all_eq_true]
        intro d hd
        rcases (hdm d hd).2 with hc | hrm
        · simpa using hc
        · exact absurd (hdm d hd).1 (Nat.not_lt.mpr (hmin d hrm))
      have hmf : m ∈ (r :: rs).filter (canExecuteId dag completed) :=
        List.mem_filter.mpr ⟨hm, hcanm⟩
      have hlevel : ((r :: rs).filter (canExecuteId dag completed)).isEmpty = false := by
        cases hfe : (r :: rs).filter (canExecuteId dag completed) with
        | nil => rw [hfe] at hmf; exact absurd hmf (List.not_mem_nil m)
        | cons a as => rfl
      have hlt : ((r :: rs).filter (fun y => !canExecuteId dag completed y)).length
          < (r :: rs).length :=
        length_filter_lt_of_dropped hm (by simp only [hcanm, Bool.not_true])
      have hlen2 : ((r :: rs).filter (fun y => !canExecuteId dag completed y)).length ≤ f :=
        Nat.lt_succ_iff.mp (Nat.lt_of_lt_of_le hlt hlen)
      have hinv2 : ∀ x ∈ (r :: rs).filter (fun y => !canExecuteId dag completed y),
          ∃ n, nodesFind dag x = some n ∧ n.status = .pending ∧
            ∀ d ∈ n.dependencies, rank d < rank x ∧
              (d ∈ completed ++ (r :: rs).filter (canExecuteId dag completed) ∨
               d ∈ (r :: rs).filter (fun y => !canExecuteId dag completed y)) := by
        intro x hx
        have hx0 := (List.mem_filter.mp hx).1
        obtain ⟨n, hfn, hpn, hdn⟩ := hinv x hx0
        refine ⟨n, hfn, hpn, fun d hd => ⟨(hdn d hd).1, ?_⟩⟩
        rcases (hdn d hd).2 with hc | hrm
        · exact Or.inl (List.mem_append.mpr (Or.inl hc))
        · by_cases hcd : canExecuteId dag completed d = true
          · exact Or.inl (List.mem_append.mpr (Or.inr (List.mem_filter.mpr ⟨hrm, hcd⟩)))
          · exact Or.inr (List.mem_filter.mpr ⟨hrm, by simp [hcd]⟩)
      obtain ⟨rest, hrest⟩ := ih ((r :: rs).filter (fun y => !canExecuteId dag completed y))
        (completed ++ (r :: rs).filter (canExecuteId dag completed)) hlen2 hinv2
      refine ⟨((r :: rs).filter (canExecuteId dag completed)) :: rest, ?_⟩
      simp only [execOrderAux]
      rw [hlevel]
      simp only [Bool.false_eq_true, if_false]
      rw [hrest]

/-- Claim C6: for a validated acyclic DAG (acyclicity exhibited by a rank
function decreasing along dependencies) whose nodes are all PENDING and
whose dependencies all name declared nodes, `get_execution_order` succeeds,
its levels partition the node-id set, level 0 is exactly the nodes with no
dependencies, and every dependency of a level-k node lies in an earlier
level — never in its own or a later level. -/
theorem c6_execution_order (dag : WorkflowDAG) (rank : String → Nat)
    (hnodup : (dag.map DAGNode.id).Nodup)
    (hpend : ∀ n ∈ dag, n.status = .pending)
    (hdeps : ∀ n ∈ dag, ∀ d ∈ n.dependencies, d ∈ dag.map DAGNode.id)
    (hrank : ∀ n ∈ dag, ∀ d ∈ n.dependencies, rank d < rank n.id)
    (hval : dagValidate dag = true) :
    ∃ levels, getExecutionOrder dag = some levels ∧
      List.Perm levels.flatten (dag.map DAGNode.id) ∧
      (∀ x, x ∈ levels.getD 0 [] ↔ ∃ n ∈ dag, n.id = x ∧ n.dependencies = []) ∧
      (∀ (k : Nat) (x : String) (n : DAGNode), x ∈ levels.getD k [] →
        nodesFind dag x = some n → ∀ d ∈ n.dependencies,
          d ∈ (levels.take k).flatten ∧ d ∉ (levels.drop k).flatten) := by
  have hord0 : ∃ levels, getExecutionOrder dag = some levels := by
    unfold getExecutionOrder
    rw [if_pos hval]
    apply execOrderAux_total dag rank _ _ _ (le_refl _)
    intro x hx
    obtain ⟨n, hn, rfl⟩ := List.mem_map.mp hx
    exact ⟨n, nodesFind_self hnodup hn, hpend n hn,
      fun d hd => ⟨hrank n hn d hd, Or.inr (hdeps n hn d hd)⟩⟩
  obtain ⟨levels, hord⟩ := hord0
  refine ⟨levels, hord, getExecutionOrder_perm hord, ?_, ?_⟩
  · intro x
    cases hids : dag.map DAGNode.id with
    | nil =>
      have hdag : dag = [] := List.map_eq_nil.mp hids
      subst hdag
      have hlv : levels = [] := by
        unfold getExecutionOrder at hord
        rw [if_pos hval] at hord
        simp only [List.map_nil, List.length_nil, execOrderAux,
          Option.some.injEq] at hord
        exact hord.symm
      subst hlv
      simp
    | cons i is =>
      unfold getExecutionOrder at hord
      rw [if_pos hval] at hord
      have hne : dag.map DAGNode.id ≠ [] := by rw [hids]; simp
      obtain ⟨rest, hlv⟩ := execOrderAux_head dag _ _ _ levels hord hne
      rw [hlv, List.getD_cons_zero]
      constructor
      · intro hx
        have hx1 := (List.mem_filter.mp hx).1
        have hx2 := (List.mem_filter.mp hx).2
        obtain ⟨n, hfn⟩ := nodesFind_of_mem hx1
        obtain ⟨hnmem, hnid⟩ := nodesFind_eq_some hfn
        refine ⟨n, hnmem, hnid, ?_⟩
        unfold canExecuteId at hx2
        rw [hfn] at hx2
        dsimp only at hx2
        unfold DAGNode.canExecute at hx2
        simp only [Bool.and_eq_true] at hx2
        have hall := hx2.2
        cases hdep : n.dependencies with
        | nil => rfl
        | cons d ds =>
          rw [hdep] at hall
          simp at hall
      · rintro ⟨n, hnmem, rfl, hdep⟩
        apply List.mem_filter.mpr
        refine ⟨List.mem_map.mpr ⟨n, hnmem, rfl⟩, ?_⟩
        unfold canExecuteId
        rw [nodesFind_self hnodup hnmem]
        dsimp only
        unfold DAGNode.canExecute
        rw [hpend n hnmem, hdep]
        rfl
  · intro k x n hx hfind d hd
    have hcan := getExecutionOrder_can hord k x hx
    unfold canExecuteId at hcan
    rw [hfind] at hcan
    dsimp only at hcan
    unfold DAGNode.canExecute at hcan
    simp only [Bool.and_eq_true] at hcan
    have hall := hcan.2
    rw [List.all_eq_true] at hall
    have hdin : d ∈ (levels.take k).flatten := by simpa using hall d hd
    refine ⟨hdin, ?_⟩
    have hfl : levels.flatten.Nodup := (getExecutionOrder_perm hord).nodup_iff.mpr hnodup
    have hsplit : levels.flatten = (levels.take k).flatten ++ (levels.drop k).flatten := by
      rw [← List.flatten_append, List.take_append_drop]
    rw [hsplit] at hfl
    exact (List.disjoint_of_nodup_append hfl) hdin

/-- The concrete DAG used to witness claim C6: BB depends on A. -/
def c6DagW : WorkflowDAG :=
  [{ id := "A", name := "A", agentType := "web_search" },
   { id := "BB", name := "B", agentType := "text_writing", dependencies := ["A"] }]

/-- Witness for `c6_execution_order` on a concrete two-node chain, with
string length as the rank function. -/
theorem c6_execution_order_witness :
    ∃ levels, getExecutionOrder c6DagW = some levels ∧
      List.Perm levels.flatten (c6DagW.map DAGNode.id) ∧
      (∀ x, x ∈ levels.getD 0 [] ↔ ∃ n ∈ c6DagW, n.id = x ∧ n.dependencies = []) ∧
      (∀ (k : Nat) (x : String) (n : DAGNode), x ∈ levels.getD k [] →
        nodesFind c6DagW x = some n → ∀ d ∈ n.dependencies,
          d ∈ (levels.take k).flatten ∧ d ∉ (levels.drop k).flatten) :=
  c6_execution_order c6DagW (fun s => s.length) (by decide) (by decide) (by decide)
    (by decide) (by decide)

end EvoFlow
